import Mathlib

/-!
Shallow embedding of the CRDT visualizer's replication core.

JavaScript `Map` and `Set` are modelled as insertion-ordered lists:
a `ListMap` is a list of key/value pairs with no duplicate keys in any
state actually produced by the code (`Map.set` overwrites the first
binding in place, otherwise appends), and a `ListSet` is a list with
`insert` appending only when the element is absent.  Iteration order of
the model is exactly JS iteration (insertion) order.  UUID generation
(`uuidv4()`) is an injected capability: every function of the source
that mints a fresh identifier takes it here as an explicit argument.
-/

namespace CRDT

/-- Model of a JavaScript `Map`: association list in insertion order. -/
abbrev ListMap (α β : Type) := List (α × β)

/-- First-match lookup, i.e. JS `Map.get`.  On the states the code
builds, keys are unique so first match is the only match. -/
def ListMap.get? {α β : Type} [DecidableEq α] : ListMap α β → α → Option β
  | [], _ => none
  | p :: l, k => if p.1 = k then some p.2 else ListMap.get? l k

/-- JS `Map.set`: overwrite the first binding of the key in place,
otherwise append the new binding at the end. -/
def ListMap.set {α β : Type} [DecidableEq α] : ListMap α β → α → β → ListMap α β
  | [], k, v => [(k, v)]
  | p :: l, k, v => if p.1 = k then (k, v) :: l else p :: ListMap.set l k v

/-- Keys of the map, in insertion order. -/
def ListMap.keys {α β : Type} (m : ListMap α β) : List α := m.map Prod.fst

/-- Model of a JavaScript `Set`: list in insertion order. -/
abbrev ListSet (α : Type) := List α

/-- JS `Set.add`: append the element unless already present. -/
def ListSet.insert {α : Type} [DecidableEq α] (s : ListSet α) (a : α) : ListSet α :=
  if a ∈ s then s else s ++ [a]

/-- Insert every element of `l` into `s`, in order (a JS `for … of` loop
of `Set.add` calls, and also `new Set(iterable)` when `s = []`). -/
def ListSet.insertAll {α : Type} [DecidableEq α] (s : ListSet α) (l : List α) : ListSet α :=
  l.foldl ListSet.insert s

/-- Insert every binding of `l` into map `m`, in order (a JS loop of
`Map.set` calls, and `new Map(iterable)` when `m = []`). -/
def ListMap.setAll {α β : Type} [DecidableEq α] (m : ListMap α β) (l : List (α × β)) :
    ListMap α β :=
  l.foldl (fun acc p => ListMap.set acc p.1 p.2) m

theorem ListSet.mem_insert {α : Type} [DecidableEq α] (s : ListSet α) (a x : α) :
    x ∈ ListSet.insert s a ↔ x ∈ s ∨ x = a := by
  unfold ListSet.insert
  split
  · constructor
    · exact Or.inl
    · rintro (h | rfl) <;> assumption
  · simp [or_comm]

theorem ListSet.mem_insertAll {α : Type} [DecidableEq α] (l : List α) (s : ListSet α) (x : α) :
    x ∈ ListSet.insertAll s l ↔ x ∈ s ∨ x ∈ l := by
  induction l generalizing s with
  | nil => simp [ListSet.insertAll]
  | cons a l ih =>
      show x ∈ ListSet.insertAll (ListSet.insert s a) l ↔ _
      rw [ih, ListSet.mem_insert]
      simp [or_assoc, or_comm, or_left_comm]

theorem ListSet.nodup_insert {α : Type} [DecidableEq α] (s : ListSet α) (a : α)
    (h : s.Nodup) : (ListSet.insert s a).Nodup := by
  unfold ListSet.insert
  split
  · exact h
  · simpa [List.nodup_append] using ⟨h, by assumption⟩

theorem ListSet.nodup_insertAll {α : Type} [DecidableEq α] (l : List α) (s : ListSet α)
    (h : s.Nodup) : (ListSet.insertAll s l).Nodup := by
  induction l generalizing s with
  | nil => exact h
  | cons a l ih => exact ih _ (ListSet.nodup_insert s a h)

end CRDT

namespace PN

/-- State of `pn-counter.ts`: two numeric vectors indexed by replica slot.
JS numbers on the reachable states are integers. -/
structure PNCounter where
  P : List Int
  N : List Int
  deriving Repr, DecidableEq

/-- Source `createPNCounter`: all-zero vectors of the given length. -/
def createPNCounter (numReplicas : Nat) : PNCounter :=
  { P := List.replicate numReplicas 0, N := List.replicate numReplicas 0 }

/-- Source `increment`: bump slot `replicaIndex` of `P` by one.  The code
reads `newP[replicaIndex] || 0`, which on an in-range slot is the stored
value (entries are non-negative); the app only uses in-range slots. -/
def increment (counter : PNCounter) (replicaIndex : Nat) : PNCounter :=
  { P := counter.P.set replicaIndex (counter.P.getD replicaIndex 0 + 1),
    N := counter.N }

/-- Source `decrement`: bump slot `replicaIndex` of `N` by one. -/
def decrement (counter : PNCounter) (replicaIndex : Nat) : PNCounter :=
  { P := counter.P,
    N := counter.N.set replicaIndex (counter.N.getD replicaIndex 0 + 1) }

/-- Source `getValue`: `Sum(P) - Sum(N)`. -/
def getValue (counter : PNCounter) : Int :=
  counter.P.sum - counter.N.sum

/-- Source `merge`: element-wise maximum over vectors padded with zeros
out to the maximum of all four lengths (`a.P[i] || 0` reads 0 past the
end and on a zero entry). -/
def merge (counterA counterB : PNCounter) : PNCounter :=
  let maxLen := max (max counterA.P.length counterA.N.length)
                    (max counterB.P.length counterB.N.length)
  { P := (List.range maxLen).map
      (fun i => max (counterA.P.getD i 0) (counterB.P.getD i 0)),
    N := (List.range maxLen).map
      (fun i => max (counterA.N.getD i 0) (counterB.N.getD i 0)) }

/-- Source `mergeAll`: left fold of `merge` over a nonempty list. -/
def mergeAll (counters : List PNCounter) : PNCounter :=
  match counters with
  | [] => createPNCounter 0
  | c :: rest => rest.foldl merge c

/-- Source `equals`: both vectors have identical lengths and entries. -/
def equals (counterA counterB : PNCounter) : Bool :=
  counterA.P.length == counterB.P.length &&
  counterA.N.length == counterB.N.length &&
  (List.range counterA.P.length).all
    (fun i => counterA.P.getD i 0 == counterB.P.getD i 0) &&
  (List.range counterA.N.length).all
    (fun i => counterA.N.getD i 0 == counterB.N.getD i 0)

/-- States reachable from `createPNCounter` by `increment` / `decrement`
at valid replica slots and by `merge`. -/
inductive Reachable : PNCounter → Prop
  | create (n : Nat) : Reachable (createPNCounter n)
  | inc {c : PNCounter} (i : Nat) (h : Reachable c) (hi : i < c.P.length) :
      Reachable (increment c i)
  | dec {c : PNCounter} (i : Nat) (h : Reachable c) (hi : i < c.N.length) :
      Reachable (decrement c i)
  | mrg {a b : PNCounter} (ha : Reachable a) (hb : Reachable b) :
      Reachable (merge a b)

end PN

namespace TwoP

/-- State of `two-p-set.ts`: added elements and tombstones. -/
structure TwoPSet (α : Type) where
  added : CRDT.ListSet α
  removed : CRDT.ListSet α
  deriving Repr, DecidableEq

/-- Source `createTwoPSet`. -/
def createTwoPSet (α : Type) : TwoPSet α := { added := [], removed := [] }

/-- Source `add`: insert into `added`. -/
def add {α : Type} [DecidableEq α] (set : TwoPSet α) (element : α) : TwoPSet α :=
  { added := set.added.insert element, removed := set.removed }

/-- Source `remove`: insert into `removed`, unconditionally. -/
def remove {α : Type} [DecidableEq α] (set : TwoPSet α) (element : α) : TwoPSet α :=
  { added := set.added, removed := set.removed.insert element }

/-- Source `lookup`: build the set of elements of `added` not in
`removed`, iterating `added` in order. -/
def lookup {α : Type} [DecidableEq α] (set : TwoPSet α) : CRDT.ListSet α :=
  set.added.foldl
    (fun result element =>
      if element ∈ set.removed then result else result.insert element) []

/-- Source `contains`: membership in `added` and not in `removed`. -/
def contains {α : Type} [DecidableEq α] (set : TwoPSet α) (element : α) : Bool :=
  element ∈ set.added && !(element ∈ set.removed)

/-- Source `merge`: union of the `added` sets and union of the `removed`
sets, built by inserting A's then B's elements into fresh sets. -/
def merge {α : Type} [DecidableEq α] (setA setB : TwoPSet α) : TwoPSet α :=
  { added := (CRDT.ListSet.insertAll [] setA.added).insertAll setB.added,
    removed := (CRDT.ListSet.insertAll [] setA.removed).insertAll setB.removed }

/-- Source `equals`: sizes agree and each side's elements belong to the
other (JS `Set.size` = length, the lists being duplicate-free). -/
def equals {α : Type} [DecidableEq α] (setA setB : TwoPSet α) : Bool :=
  setA.added.length == setB.added.length &&
  setA.removed.length == setB.removed.length &&
  setA.added.all (fun e => e ∈ setB.added) &&
  setA.removed.all (fun e => e ∈ setB.removed)

/-- Source `serialize`: the two sets as arrays (`Array.from` is the
identity on the list model). -/
def serialize {α : Type} (set : TwoPSet α) : List α × List α :=
  (set.added, set.removed)

end TwoP

namespace GSet

/-- State of the add-only set module: a single grow-only set. -/
structure AddOnlySet (α : Type) where
  elements : CRDT.ListSet α
  deriving Repr, DecidableEq

/-- Source `createAddOnlySet`. -/
def createAddOnlySet (α : Type) : AddOnlySet α := { elements := [] }

/-- Source `add`. -/
def add {α : Type} [DecidableEq α] (set : AddOnlySet α) (element : α) : AddOnlySet α :=
  { elements := set.elements.insert element }

/-- Source `merge`: union built by inserting A's then B's elements. -/
def merge {α : Type} [DecidableEq α] (setA setB : AddOnlySet α) : AddOnlySet α :=
  { elements := (CRDT.ListSet.insertAll [] setA.elements).insertAll setB.elements }

/-- Source `equals`: sizes agree and A's elements belong to B. -/
def equals {α : Type} [DecidableEq α] (setA setB : AddOnlySet α) : Bool :=
  setA.elements.length == setB.elements.length &&
  setA.elements.all (fun e => e ∈ setB.elements)

end GSet

namespace DG

/-- Vertex record of the state-based graph: a display name and the
unique tag minted at addition time. -/
structure Vertex where
  name : String
  uuid : String
  deriving Repr, DecidableEq

/-- Arc record: endpoint names and the arc's unique tag. -/
structure Arc where
  «from» : String
  «to» : String
  uuid : String
  deriving Repr, DecidableEq

/-- State of the state-based directed graph (`DirectedGraph` in
`types/crdt.ts`): tag-keyed vertex and arc maps plus tombstone sets. -/
structure DirectedGraph where
  vertices : CRDT.ListMap String Vertex
  removedVertices : CRDT.ListSet String
  arcs : CRDT.ListMap String Arc
  removedArcs : CRDT.ListSet String
  deriving Repr, DecidableEq

/-- Source `createDirectedGraph`. -/
def createDirectedGraph : DirectedGraph :=
  { vertices := [], removedVertices := [], arcs := [], removedArcs := [] }

/-- Source `addVertex`; the fresh `uuidv4()` is the `uuid` argument. -/
def addVertex (graph : DirectedGraph) (name : String) (uuid : String) : DirectedGraph :=
  { graph with vertices := graph.vertices.set uuid { name := name, uuid := uuid } }

/-- Source `removeVertex`: for every visible binding of `name`,
tombstone its tag, and (inside that loop) tombstone every arc touching
`name` that was visible at call time.  Visibility tests read the
original sets, as in the code. -/
def removeVertex (graph : DirectedGraph) (name : String) : DirectedGraph :=
  let step := fun (acc : CRDT.ListSet String × CRDT.ListSet String)
      (p : String × Vertex) =>
    if p.2.name = name ∧ p.1 ∉ graph.removedVertices then
      (acc.1.insert p.1,
       graph.arcs.foldl
         (fun racc q =>
           if (q.2.«from» = name ∨ q.2.«to» = name) ∧ q.1 ∉ graph.removedArcs then
             racc.insert q.1
           else racc)
         acc.2)
    else acc
  let res := graph.vertices.foldl step (graph.removedVertices, graph.removedArcs)
  { graph with removedVertices := res.1, removedArcs := res.2 }

/-- Generic shape of the two visibility queries: walk the entries in
insertion order, keep an entry when it passes the visibility test and
its dedup key was not seen before, remembering seen keys. -/
def collectFirst {σ κ : Type} [DecidableEq κ] (vis : σ → Bool) (key : σ → κ) :
    List σ → List κ → List σ
  | [], _ => []
  | x :: rest, seen =>
      if vis x = true ∧ key x ∉ seen then
        x :: collectFirst vis key rest (key x :: seen)
      else collectFirst vis key rest seen

/-- Source `getVisibleVertices`: entries whose tag is not tombstoned,
first entry per name (dedup via `seenNames`). -/
def getVisibleVertices (graph : DirectedGraph) : List Vertex :=
  (collectFirst (fun p => !(graph.removedVertices.contains p.1))
      (fun p => p.2.name) graph.vertices []).map Prod.snd

/-- Dedup key of `getVisibleArcs`: the template string `from->to`. -/
def arcKey (a : Arc) : String := a.«from» ++ "->" ++ a.«to»

/-- Source `getVisibleArcs`: arcs not tombstoned whose endpoint names
are both visible, first arc per `from->to` key (dedup via `seenArcs`). -/
def getVisibleArcs (graph : DirectedGraph) : List Arc :=
  let visibleVertexNames := (getVisibleVertices graph).map Vertex.name
  (collectFirst
      (fun p => !(graph.removedArcs.contains p.1) &&
        visibleVertexNames.contains p.2.«from» &&
        visibleVertexNames.contains p.2.«to»)
      (fun p => arcKey p.2) graph.arcs []).map Prod.snd

/-- Source `addArc`: `null` unless both endpoint names are visible; on
success insert one fresh arc record keyed by the supplied `uuid`. -/
def addArc (graph : DirectedGraph) («from» «to» : String) (uuid : String) :
    Option DirectedGraph :=
  let fromExists := (getVisibleVertices graph).any (fun v => v.name == «from»)
  let toExists := (getVisibleVertices graph).any (fun v => v.name == «to»)
  if !fromExists || !toExists then none
  else some
    { graph with
      arcs := graph.arcs.set uuid { «from» := «from», «to» := «to», uuid := uuid } }

/-- Source `removeArc`: tombstone every visible arc matching the pair. -/
def removeArc (graph : DirectedGraph) («from» «to» : String) : DirectedGraph :=
  { graph with
    removedArcs := graph.arcs.foldl
      (fun acc p =>
        if p.2.«from» = «from» ∧ p.2.«to» = «to» ∧ p.1 ∉ graph.removedArcs then
          acc.insert p.1
        else acc)
      graph.removedArcs }

/-- Source `merge`: union of the two vertex maps (B's bindings written
after A's), union of both tombstone sets, likewise for arcs. -/
def merge (graphA graphB : DirectedGraph) : DirectedGraph :=
  { vertices := (CRDT.ListMap.setAll [] graphA.vertices).setAll graphB.vertices,
    removedVertices :=
      (CRDT.ListSet.insertAll [] graphA.removedVertices).insertAll
        graphB.removedVertices,
    arcs := (CRDT.ListMap.setAll [] graphA.arcs).setAll graphB.arcs,
    removedArcs :=
      (CRDT.ListSet.insertAll [] graphA.removedArcs).insertAll
        graphB.removedArcs }

/-- Source `mergeAll`: left fold of `merge` over a nonempty list. -/
def mergeAll (graphs : List DirectedGraph) : DirectedGraph :=
  match graphs with
  | [] => createDirectedGraph
  | g :: rest => rest.foldl merge g

/-- Source `hasVertex`: some visible vertex record carries the name. -/
def hasVertex (graph : DirectedGraph) (name : String) : Bool :=
  (getVisibleVertices graph).any (fun v => v.name == name)

/-- Source `hasArc`: some visible arc record carries the pair. -/
def hasArc (graph : DirectedGraph) («from» «to» : String) : Bool :=
  (getVisibleArcs graph).any (fun a => a.«from» == «from» && a.«to» == «to»)

/-- Source `serialize`: maps rendered as their value sequences, sets as
element sequences. -/
def serialize (graph : DirectedGraph) :
    List Vertex × List String × List Arc × List String :=
  (graph.vertices.map Prod.snd, graph.removedVertices,
   graph.arcs.map Prod.snd, graph.removedArcs)

/-- The graph type has no `equals` in the source; states are compared
extensionally: same key→record bindings and same tombstone membership,
i.e. equality of the underlying maps and sets up to ordering. -/
def DGEquiv (a b : DirectedGraph) : Prop :=
  (∀ k, a.vertices.get? k = b.vertices.get? k) ∧
  (∀ x, x ∈ a.removedVertices ↔ x ∈ b.removedVertices) ∧
  (∀ k, a.arcs.get? k = b.arcs.get? k) ∧
  (∀ x, x ∈ a.removedArcs ↔ x ∈ b.removedArcs)

end DG

namespace CmRDT

/-- Payload of an `AddVertex` operation. -/
structure AddVertexPayload where
  name : String
  tag : String
  deriving Repr, DecidableEq

/-- Payload of a `RemoveVertex` operation: the tags observed visible at
prepare time. -/
structure RemoveVertexPayload where
  name : String
  observedTags : List String
  deriving Repr, DecidableEq

/-- Payload of an `AddArc` operation. -/
structure AddArcPayload where
  «from» : String
  «to» : String
  tag : String
  deriving Repr, DecidableEq

/-- Payload of a `RemoveArc` operation: the arc tags observed visible at
prepare time. -/
structure RemoveArcPayload where
  «from» : String
  «to» : String
  observedTags : List String
  deriving Repr, DecidableEq

/-- The TS `type` discriminant together with its matching payload; the
source stores them as two fields whose well-typed combinations are
exactly these four. -/
inductive OpPayload
  | addVertex (p : AddVertexPayload)
  | removeVertex (p : RemoveVertexPayload)
  | addArc (p : AddArcPayload)
  | removeArc (p : RemoveArcPayload)
  deriving Repr, DecidableEq

/-- Immutable prepared operation (`PreparedOp` in `types/crdt.ts`). -/
structure PreparedOp where
  id : String
  originReplica : String
  timestamp : Nat
  payload : OpPayload
  deriving Repr, DecidableEq

/-- State of the operation-based graph (`CmRDTGraph`). -/
structure CmRDTGraph where
  V : CRDT.ListMap String (CRDT.ListSet String)
  R : CRDT.ListSet String
  arcs : CRDT.ListMap String (String × String)
  removedArcs : CRDT.ListSet String
  operationQueue : List PreparedOp
  clock : Nat
  replicaId : String
  deriving Repr, DecidableEq

/-- Source `createCmRDTGraph`. -/
def createCmRDTGraph (replicaId : String) : CmRDTGraph :=
  { V := [], R := [], arcs := [], removedArcs := [],
    operationQueue := [], clock := 0, replicaId := replicaId }

/-- The inline visibility test used throughout the source: the name has
a tag set containing some tag not in `R`. -/
def nameVisible (graph : CmRDTGraph) (name : String) : Bool :=
  match graph.V.get? name with
  | some tags => tags.any (fun tag => !(graph.R.contains tag))
  | none => false

/-- Source `prepareAddVertex`; the two `uuidv4()` calls are the `opId`
and `tag` arguments. -/
def prepareAddVertex (graph : CmRDTGraph) (name : String) (opId tag : String) :
    PreparedOp :=
  { id := opId, originReplica := graph.replicaId, timestamp := graph.clock + 1,
    payload := .addVertex { name := name, tag := tag } }

/-- Source `prepareRemoveVertex`: `null` when the name has no tags or no
visible tags; otherwise the filtered visible tags. -/
def prepareRemoveVertex (graph : CmRDTGraph) (name : String) (opId : String) :
    Option PreparedOp :=
  match graph.V.get? name with
  | none => none
  | some tags =>
      if tags.length = 0 then none
      else
        let observedTags := tags.filter (fun tag => !(graph.R.contains tag))
        if observedTags.length = 0 then none
        else some
          { id := opId, originReplica := graph.replicaId,
            timestamp := graph.clock + 1,
            payload := .removeVertex { name := name, observedTags := observedTags } }

/-- Source `prepareAddArc`: `null` unless both endpoints are visible. -/
def prepareAddArc (graph : CmRDTGraph) («from» «to» : String) (opId tag : String) :
    Option PreparedOp :=
  if !(nameVisible graph «from») then none
  else if !(nameVisible graph «to») then none
  else some
    { id := opId, originReplica := graph.replicaId, timestamp := graph.clock + 1,
      payload := .addArc { «from» := «from», «to» := «to», tag := tag } }

/-- Source `prepareRemoveArc`: collect the visible arc uuids matching
the pair, in map order; `null` when none. -/
def prepareRemoveArc (graph : CmRDTGraph) («from» «to» : String) (opId : String) :
    Option PreparedOp :=
  let observedTags := (graph.arcs.filter
    (fun p => p.2.1 == «from» && p.2.2 == «to» && !(graph.removedArcs.contains p.1))).map
      Prod.fst
  if observedTags.length = 0 then none
  else some
    { id := opId, originReplica := graph.replicaId, timestamp := graph.clock + 1,
      payload := .removeArc
        { «from» := «from», «to» := «to», observedTags := observedTags } }

/-- Source `effectAddVertex`: add the tag to the name's tag set,
creating the entry when absent. -/
def effectAddVertex (graph : CmRDTGraph) (payload : AddVertexPayload) : CmRDTGraph :=
  match graph.V.get? payload.name with
  | some tags => { graph with V := graph.V.set payload.name (tags.insert payload.tag) }
  | none =>
      { graph with
        V := graph.V.set payload.name (CRDT.ListSet.insert [] payload.tag) }

/-- The `stillVisible` local of `effectRemoveVertex`: after unioning the
observed tags into `R`, some tag of the payload's name is still outside
the removal set. -/
def stillVisibleAfter (graph : CmRDTGraph) (payload : RemoveVertexPayload) : Bool :=
  match graph.V.get? payload.name with
  | some tags =>
      tags.any (fun t => !((graph.R.insertAll payload.observedTags).contains t))
  | none => false

/-- Source `effectRemoveVertex`: union the observed tags into `R`; if
afterwards the name has no visible tag, tombstone every arc touching the
name that is not already tombstoned. -/
def effectRemoveVertex (graph : CmRDTGraph) (payload : RemoveVertexPayload) :
    CmRDTGraph :=
  let newR := graph.R.insertAll payload.observedTags
  if stillVisibleAfter graph payload then { graph with R := newR }
  else
    { graph with
      R := newR,
      removedArcs := graph.arcs.foldl
        (fun acc p =>
          if (p.2.1 = payload.name ∨ p.2.2 = payload.name) ∧ p.1 ∉ graph.removedArcs
          then acc.insert p.1
          else acc)
        graph.removedArcs }

/-- Source `effectAddArc`: insert the arc only when both endpoints are
visible at effect-application time. -/
def effectAddArc (graph : CmRDTGraph) (payload : AddArcPayload) : CmRDTGraph :=
  if nameVisible graph payload.«from» && nameVisible graph payload.«to» then
    { graph with arcs := graph.arcs.set payload.tag (payload.«from», payload.«to») }
  else graph

/-- Source `effectRemoveArc`: union the observed tags into `removedArcs`. -/
def effectRemoveArc (graph : CmRDTGraph) (payload : RemoveArcPayload) : CmRDTGraph :=
  { graph with removedArcs := graph.removedArcs.insertAll payload.observedTags }

/-- Source `applyEffect`: dispatch on the operation type, then advance
the clock to `max(clock, op.timestamp)`. -/
def applyEffect (graph : CmRDTGraph) (op : PreparedOp) : CmRDTGraph :=
  let newGraph :=
    match op.payload with
    | .addVertex p => effectAddVertex graph p
    | .removeVertex p => effectRemoveVertex graph p
    | .addArc p => effectAddArc graph p
    | .removeArc p => effectRemoveArc graph p
  { newGraph with clock := max newGraph.clock op.timestamp }

/-- Source `addVertex` wrapper: prepare, set the clock to the op's
timestamp, apply the effect locally, append the op to the queue. -/
def addVertex (graph : CmRDTGraph) (name : String) (opId tag : String) : CmRDTGraph :=
  let op := prepareAddVertex graph name opId tag
  let g1 := { graph with clock := op.timestamp }
  let g2 := effectAddVertex g1 { name := name, tag := tag }
  { g2 with operationQueue := g2.operationQueue ++ [op] }

/-- Source `removeVertex` wrapper: `null` when prepare fails. -/
def removeVertex (graph : CmRDTGraph) (name : String) (opId : String) :
    Option CmRDTGraph :=
  match prepareRemoveVertex graph name opId with
  | none => none
  | some op =>
      match op.payload with
      | .removeVertex p =>
          let g1 := { graph with clock := op.timestamp }
          let g2 := effectRemoveVertex g1 p
          some { g2 with operationQueue := g2.operationQueue ++ [op] }
      | _ => none

/-- Source `addArc` wrapper: `null` when prepare fails. -/
def addArc (graph : CmRDTGraph) («from» «to» : String) (opId tag : String) :
    Option CmRDTGraph :=
  match prepareAddArc graph «from» «to» opId tag with
  | none => none
  | some op =>
      let g1 := { graph with clock := op.timestamp }
      let g2 := effectAddArc g1 { «from» := «from», «to» := «to», tag := tag }
      some { g2 with operationQueue := g2.operationQueue ++ [op] }

/-- Source `removeArc` wrapper: `null` when prepare fails. -/
def removeArc (graph : CmRDTGraph) («from» «to» : String) (opId : String) :
    Option CmRDTGraph :=
  match prepareRemoveArc graph «from» «to» opId with
  | none => none
  | some op =>
      match op.payload with
      | .removeArc p =>
          let g1 := { graph with clock := op.timestamp }
          let g2 := effectRemoveArc g1 p
          some { g2 with operationQueue := g2.operationQueue ++ [op] }
      | _ => none

/-- Source `clearOperationQueue`. -/
def clearOperationQueue (graph : CmRDTGraph) : CmRDTGraph :=
  { graph with operationQueue := [] }

/-- Comparator used by both sync sorts: ascending timestamp. -/
def opLE (a b : PreparedOp × Nat) : Bool := a.1.timestamp ≤ b.1.timestamp

/-- The collection loop of `syncAllReplicas`: every queued op of every
replica, tagged with the index of the replica whose queue held it. -/
def collectOps (replicas : List CmRDTGraph) : List (PreparedOp × Nat) :=
  (replicas.enum).flatMap
    (fun p => p.2.operationQueue.map (fun op => (op, p.1)))

/-- The inner delivery loop of `syncAllReplicas`: apply `op` to every
replica whose index differs from `src`; `j` is the index of the head. -/
def applyToOthers (op : PreparedOp) (src : Nat) :
    Nat → List CmRDTGraph → List CmRDTGraph
  | _, [] => []
  | j, g :: gs =>
      (if j = src then g else applyEffect g op) :: applyToOthers op src (j + 1) gs

/-- The outer delivery loop: each globally ordered op in turn. -/
def deliverAll (replicas : List CmRDTGraph) (ops : List (PreparedOp × Nat)) :
    List CmRDTGraph :=
  ops.foldl (fun cur p => applyToOthers p.1 p.2 0 cur) replicas

/-- Source `syncAllReplicas` (updated replicas component): collect all
queued ops, sort them by timestamp, deliver each to every replica other
than its source, then clear every queue. -/
def syncAllReplicas (replicas : List CmRDTGraph) : List CmRDTGraph :=
  (deliverAll replicas ((collectOps replicas).mergeSort opLE)).map clearOperationQueue

/-- Source `serialize`: every field rendered as sequences, except that
`replicaId` is not part of the serialized record. -/
structure Serialized where
  V : List (String × List String)
  R : List String
  arcs : List (String × String × String)
  removedArcs : List String
  operationQueue : List PreparedOp
  clock : Nat
  deriving Repr, DecidableEq

/-- Source `serialize` of the CmRDT graph. -/
def serialize (graph : CmRDTGraph) : Serialized :=
  { V := graph.V.map (fun p => (p.1, p.2)),
    R := graph.R,
    arcs := graph.arcs.map (fun p => (p.1, p.2.1, p.2.2)),
    removedArcs := graph.removedArcs,
    operationQueue := graph.operationQueue,
    clock := graph.clock }

end CmRDT

/-- C2: state-based add-wins scenario.  Replicas A, B, C start empty;
A adds vertex "X" minting tag `t1`; all three merge; A then removes "X"
(tombstoning exactly `t1`); B independently adds "X" again minting `t2`;
the three-way merge has vertex tags `{t1, t2}`, tombstones `{t1}`, and
"X" is visible because `t2` is not tombstoned (add-wins). -/
theorem C2_state_graph_add_wins_scenario :
    (DG.mergeAll [DG.addVertex DG.createDirectedGraph "X" "t1",
        DG.createDirectedGraph, DG.createDirectedGraph]).vertices
      = [("t1", { name := "X", uuid := "t1" })] ∧
    (DG.removeVertex
        (DG.mergeAll [DG.addVertex DG.createDirectedGraph "X" "t1",
          DG.createDirectedGraph, DG.createDirectedGraph]) "X").removedVertices
      = ["t1"] ∧
    (DG.mergeAll
        [DG.removeVertex
          (DG.mergeAll [DG.addVertex DG.createDirectedGraph "X" "t1",
            DG.createDirectedGraph, DG.createDirectedGraph]) "X",
         DG.addVertex
          (DG.mergeAll [DG.addVertex DG.createDirectedGraph "X" "t1",
            DG.createDirectedGraph, DG.createDirectedGraph]) "X" "t2",
         DG.mergeAll [DG.addVertex DG.createDirectedGraph "X" "t1",
            DG.createDirectedGraph, DG.createDirectedGraph]]).vertices
      = [("t1", { name := "X", uuid := "t1" }), ("t2", { name := "X", uuid := "t2" })] ∧
    (DG.mergeAll
        [DG.removeVertex
          (DG.mergeAll [DG.addVertex DG.createDirectedGraph "X" "t1",
            DG.createDirectedGraph, DG.createDirectedGraph]) "X",
         DG.addVertex
          (DG.mergeAll [DG.addVertex DG.createDirectedGraph "X" "t1",
            DG.createDirectedGraph, DG.createDirectedGraph]) "X" "t2",
         DG.mergeAll [DG.addVertex DG.createDirectedGraph "X" "t1",
            DG.createDirectedGraph, DG.createDirectedGraph]]).removedVertices
      = ["t1"] ∧
    ("t2" ∉
      (DG.mergeAll
        [DG.removeVertex
          (DG.mergeAll [DG.addVertex DG.createDirectedGraph "X" "t1",
            DG.createDirectedGraph, DG.createDirectedGraph]) "X",
         DG.addVertex
          (DG.mergeAll [DG.addVertex DG.createDirectedGraph "X" "t1",
            DG.createDirectedGraph, DG.createDirectedGraph]) "X" "t2",
         DG.mergeAll [DG.addVertex DG.createDirectedGraph "X" "t1",
            DG.createDirectedGraph, DG.createDirectedGraph]]).removedVertices) ∧
    DG.hasVertex
      (DG.mergeAll
        [DG.removeVertex
          (DG.mergeAll [DG.addVertex DG.createDirectedGraph "X" "t1",
            DG.createDirectedGraph, DG.createDirectedGraph]) "X",
         DG.addVertex
          (DG.mergeAll [DG.addVertex DG.createDirectedGraph "X" "t1",
            DG.createDirectedGraph, DG.createDirectedGraph]) "X" "t2",
         DG.mergeAll [DG.addVertex DG.createDirectedGraph "X" "t1",
            DG.createDirectedGraph, DG.createDirectedGraph]]) "X" = true := by
  decide

namespace CmRDT

theorem effectAddVertex_frame (g : CmRDTGraph) (p : AddVertexPayload) :
    (effectAddVertex g p).operationQueue = g.operationQueue ∧
    (effectAddVertex g p).clock = g.clock ∧
    (effectAddVertex g p).replicaId = g.replicaId := by
  unfold effectAddVertex
  cases g.V.get? p.name <;> simp

theorem effectRemoveVertex_frame (g : CmRDTGraph) (p : RemoveVertexPayload) :
    (effectRemoveVertex g p).operationQueue = g.operationQueue ∧
    (effectRemoveVertex g p).clock = g.clock ∧
    (effectRemoveVertex g p).replicaId = g.replicaId := by
  unfold effectRemoveVertex
  dsimp only
  split <;> simp

theorem effectAddArc_frame (g : CmRDTGraph) (p : AddArcPayload) :
    (effectAddArc g p).operationQueue = g.operationQueue ∧
    (effectAddArc g p).clock = g.clock ∧
    (effectAddArc g p).replicaId = g.replicaId := by
  unfold effectAddArc
  split <;> simp

theorem effectRemoveArc_frame (g : CmRDTGraph) (p : RemoveArcPayload) :
    (effectRemoveArc g p).operationQueue = g.operationQueue ∧
    (effectRemoveArc g p).clock = g.clock ∧
    (effectRemoveArc g p).replicaId = g.replicaId := by
  unfold effectRemoveArc
  simp

theorem prepareRemoveVertex_timestamp (g : CmRDTGraph) (name opId : String)
    (op : PreparedOp) (h : prepareRemoveVertex g name opId = some op) :
    op.timestamp = g.clock + 1 := by
  unfold prepareRemoveVertex at h
  split at h
  · exact absurd h (by simp)
  · split at h
    · exact absurd h (by simp)
    · dsimp only at h
      split at h
      · exact absurd h (by simp)
      · cases h; rfl

theorem prepareAddArc_timestamp (g : CmRDTGraph) («from» «to» opId tag : String)
    (op : PreparedOp) (h : prepareAddArc g «from» «to» opId tag = some op) :
    op.timestamp = g.clock + 1 := by
  unfold prepareAddArc at h
  split at h
  · exact absurd h (by simp)
  · split at h
    · exact absurd h (by simp)
    · cases h; rfl

theorem prepareRemoveArc_timestamp (g : CmRDTGraph) («from» «to» opId : String)
    (op : PreparedOp) (h : prepareRemoveArc g «from» «to» opId = some op) :
    op.timestamp = g.clock + 1 := by
  unfold prepareRemoveArc at h
  dsimp only at h
  split at h
  · exact absurd h (by simp)
  · cases h; rfl

end CmRDT

/-- C10: every successful local-mutation wrapper of the CmRDT graph
appends exactly one prepared op (with timestamp `clock + 1`) at the end
of the queue, leaves every previously queued op in place, sets the new
clock to `clock + 1`, and keeps the replica id. -/
theorem C10_cmrdt_wrappers_append_one_op (g : CmRDT.CmRDTGraph)
    (name «from» «to» opId tag : String) :
    ((CmRDT.addVertex g name opId tag).operationQueue
        = g.operationQueue ++ [CmRDT.prepareAddVertex g name opId tag] ∧
      (CmRDT.prepareAddVertex g name opId tag).timestamp = g.clock + 1 ∧
      (CmRDT.addVertex g name opId tag).clock = g.clock + 1 ∧
      (CmRDT.addVertex g name opId tag).replicaId = g.replicaId) ∧
    (∀ g', CmRDT.removeVertex g name opId = some g' →
      ∃ op, CmRDT.prepareRemoveVertex g name opId = some op ∧
        g'.operationQueue = g.operationQueue ++ [op] ∧
        op.timestamp = g.clock + 1 ∧ g'.clock = g.clock + 1 ∧
        g'.replicaId = g.replicaId) ∧
    (∀ g', CmRDT.addArc g «from» «to» opId tag = some g' →
      ∃ op, CmRDT.prepareAddArc g «from» «to» opId tag = some op ∧
        g'.operationQueue = g.operationQueue ++ [op] ∧
        op.timestamp = g.clock + 1 ∧ g'.clock = g.clock + 1 ∧
        g'.replicaId = g.replicaId) ∧
    (∀ g', CmRDT.removeArc g «from» «to» opId = some g' →
      ∃ op, CmRDT.prepareRemoveArc g «from» «to» opId = some op ∧
        g'.operationQueue = g.operationQueue ++ [op] ∧
        op.timestamp = g.clock + 1 ∧ g'.clock = g.clock + 1 ∧
        g'.replicaId = g.replicaId) := by
  refine ⟨?_, ?_, ?_, ?_⟩
  · cases hv : g.V.get? name <;>
      simp [CmRDT.addVertex, CmRDT.effectAddVertex, CmRDT.prepareAddVertex, hv]
  · intro g' h
    unfold CmRDT.removeVertex at h
    split at h
    · exact absurd h (by simp)
    · rename_i op hop
      split at h
      · rename_i p hp
        cases h
        have hfr := CmRDT.effectRemoveVertex_frame { g with clock := op.timestamp } p
        have hts := CmRDT.prepareRemoveVertex_timestamp g name opId op hop
        rw [hts] at hfr
        refine ⟨op, hop, ?_, hts, ?_, ?_⟩
        · simp [hts, hfr.1]
        · simp [hts, hfr.2.1]
        · simp [hts, hfr.2.2]
      · exact absurd h (by simp)
  · intro g' h
    unfold CmRDT.addArc at h
    split at h
    · exact absurd h (by simp)
    · rename_i op hop
      cases h
      have hfr := CmRDT.effectAddArc_frame { g with clock := op.timestamp }
        { «from» := «from», «to» := «to», tag := tag }
      have hts := CmRDT.prepareAddArc_timestamp g «from» «to» opId tag op hop
      rw [hts] at hfr
      refine ⟨op, hop, ?_, hts, ?_, ?_⟩
      · simp [hts, hfr.1]
      · simp [hts, hfr.2.1]
      · simp [hts, hfr.2.2]
  · intro g' h
    unfold CmRDT.removeArc at h
    split at h
    · exact absurd h (by simp)
    · rename_i op hop
      split at h
      · rename_i p hp
        cases h
        have hfr := CmRDT.effectRemoveArc_frame { g with clock := op.timestamp } p
        have hts := CmRDT.prepareRemoveArc_timestamp g «from» «to» opId op hop
        rw [hts] at hfr
        refine ⟨op, hop, ?_, hts, ?_, ?_⟩
        · simp [hts, hfr.1]
        · simp [hts, hfr.2.1]
        · simp [hts, hfr.2.2]
      · exact absurd h (by simp)

namespace CRDT

theorem mem_foldl_insertIf {α : Type} (q : String × α → Prop) [DecidablePred q]
    (l : List (String × α)) (acc : ListSet String) (u : String) :
    (u ∈ l.foldl (fun acc p => if q p then acc.insert p.1 else acc) acc) ↔
      u ∈ acc ∨ ∃ p ∈ l, q p ∧ p.1 = u := by
  induction l generalizing acc with
  | nil => simp
  | cons p l ih =>
      show (u ∈ l.foldl _ (if q p then acc.insert p.1 else acc)) ↔ _
      rw [ih]
      by_cases hq : q p
      · rw [if_pos hq, ListSet.mem_insert]
        constructor
        · rintro ((h | rfl) | h)
          · exact Or.inl h
          · exact Or.inr ⟨p, List.mem_cons_self .., hq, rfl⟩
          · obtain ⟨r, hr, hqr, hru⟩ := h
            exact Or.inr ⟨r, List.mem_cons_of_mem _ hr, hqr, hru⟩
        · rintro (h | ⟨r, hr, hqr, hru⟩)
          · exact Or.inl (Or.inl h)
          · rcases List.mem_cons.mp hr with rfl | hr
            · exact Or.inl (Or.inr hru.symm)
            · exact Or.inr ⟨r, hr, hqr, hru⟩
      · rw [if_neg hq]
        constructor
        · rintro (h | ⟨r, hr, hqr, hru⟩)
          · exact Or.inl h
          · exact Or.inr ⟨r, List.mem_cons_of_mem _ hr, hqr, hru⟩
        · rintro (h | ⟨r, hr, hqr, hru⟩)
          · exact Or.inl h
          · rcases List.mem_cons.mp hr with rfl | hr
            · exact absurd hqr hq
            · exact Or.inr ⟨r, hr, hqr, hru⟩

end CRDT

/-- C6: `effectRemoveVertex` adds exactly the observed tags to `R`,
leaves `V`, `arcs`, the queue, the clock and the replica id untouched,
keeps `removedArcs` unchanged when some tag of the name survives the new
`R`, and otherwise tombstones exactly the arcs touching the name that
were not already tombstoned. -/
theorem C6_effectRemoveVertex_spec (g : CmRDT.CmRDTGraph)
    (p : CmRDT.RemoveVertexPayload) :
    (CmRDT.effectRemoveVertex g p).R = g.R.insertAll p.observedTags ∧
    (∀ t, t ∈ (CmRDT.effectRemoveVertex g p).R ↔ t ∈ g.R ∨ t ∈ p.observedTags) ∧
    (CmRDT.effectRemoveVertex g p).V = g.V ∧
    (CmRDT.effectRemoveVertex g p).arcs = g.arcs ∧
    (CmRDT.effectRemoveVertex g p).operationQueue = g.operationQueue ∧
    (CmRDT.effectRemoveVertex g p).clock = g.clock ∧
    (CmRDT.effectRemoveVertex g p).replicaId = g.replicaId ∧
    cond (CmRDT.stillVisibleAfter g p)
      ((CmRDT.effectRemoveVertex g p).removedArcs = g.removedArcs)
      (∀ u, u ∈ (CmRDT.effectRemoveVertex g p).removedArcs ↔
        u ∈ g.removedArcs ∨
          ∃ a, (u, a) ∈ g.arcs ∧ (a.1 = p.name ∨ a.2 = p.name)) := by
  unfold CmRDT.effectRemoveVertex
  dsimp only
  cases hv : CmRDT.stillVisibleAfter g p with
  | true =>
      simp only [if_pos rfl, cond_true]
      exact ⟨rfl, fun t => CRDT.ListSet.mem_insertAll _ _ _, rfl, rfl, rfl, rfl, rfl, rfl⟩
  | false =>
      simp only [Bool.false_eq_true, if_neg, cond_false]
      refine ⟨rfl, fun t => CRDT.ListSet.mem_insertAll _ _ _, rfl, rfl, rfl, rfl, rfl, ?_⟩
      intro u
      show u ∈ g.arcs.foldl _ g.removedArcs ↔ _
      rw [CRDT.mem_foldl_insertIf
        (fun p' : String × String × String =>
          (p'.2.1 = p.name ∨ p'.2.2 = p.name) ∧ p'.1 ∉ g.removedArcs)]
      constructor
      · rintro (h | ⟨r, hr, ⟨htouch, _⟩, rfl⟩)
        · exact Or.inl h
        · exact Or.inr ⟨r.2, by simpa using hr, htouch⟩
      · rintro (h | ⟨a, ha, htouch⟩)
        · exact Or.inl h
        · by_cases hu : u ∈ g.removedArcs
          · exact Or.inl hu
          · exact Or.inr ⟨(u, a), ha, ⟨htouch, hu⟩, rfl⟩

/-- Witness for C10: a concrete replica on which each fallible wrapper
succeeds, with the queue/clock/replica-id facts instantiated. -/
theorem C10_cmrdt_wrappers_append_one_op_witness :
    (∃ g' op,
      CmRDT.removeVertex
        (CmRDT.addVertex (CmRDT.addVertex (CmRDT.createCmRDTGraph "A") "X" "o1" "t1")
          "Y" "o2" "t2") "X" "o5" = some g' ∧
      CmRDT.prepareRemoveVertex
        (CmRDT.addVertex (CmRDT.addVertex (CmRDT.createCmRDTGraph "A") "X" "o1" "t1")
          "Y" "o2" "t2") "X" "o5" = some op ∧
      g'.operationQueue =
        (CmRDT.addVertex (CmRDT.addVertex (CmRDT.createCmRDTGraph "A") "X" "o1" "t1")
          "Y" "o2" "t2").operationQueue ++ [op] ∧
      op.timestamp =
        (CmRDT.addVertex (CmRDT.addVertex (CmRDT.createCmRDTGraph "A") "X" "o1" "t1")
          "Y" "o2" "t2").clock + 1 ∧
      g'.clock =
        (CmRDT.addVertex (CmRDT.addVertex (CmRDT.createCmRDTGraph "A") "X" "o1" "t1")
          "Y" "o2" "t2").clock + 1 ∧
      g'.replicaId =
        (CmRDT.addVertex (CmRDT.addVertex (CmRDT.createCmRDTGraph "A") "X" "o1" "t1")
          "Y" "o2" "t2").replicaId) ∧
    (∃ g' op,
      CmRDT.addArc
        (CmRDT.addVertex (CmRDT.addVertex (CmRDT.createCmRDTGraph "A") "X" "o1" "t1")
          "Y" "o2" "t2") "X" "Y" "o3" "a1" = some g' ∧
      CmRDT.prepareAddArc
        (CmRDT.addVertex (CmRDT.addVertex (CmRDT.createCmRDTGraph "A") "X" "o1" "t1")
          "Y" "o2" "t2") "X" "Y" "o3" "a1" = some op ∧
      g'.operationQueue =
        (CmRDT.addVertex (CmRDT.addVertex (CmRDT.createCmRDTGraph "A") "X" "o1" "t1")
          "Y" "o2" "t2").operationQueue ++ [op] ∧
      g'.clock =
        (CmRDT.addVertex (CmRDT.addVertex (CmRDT.createCmRDTGraph "A") "X" "o1" "t1")
          "Y" "o2" "t2").clock + 1) ∧
    (∃ g' op,
      CmRDT.removeArc
        ((CmRDT.addArc
          (CmRDT.addVertex (CmRDT.addVertex (CmRDT.createCmRDTGraph "A") "X" "o1" "t1")
            "Y" "o2" "t2") "X" "Y" "o3" "a1").getD (CmRDT.createCmRDTGraph "Z"))
        "X" "Y" "o4" = some g' ∧
      g'.operationQueue =
        ((CmRDT.addArc
          (CmRDT.addVertex (CmRDT.addVertex (CmRDT.createCmRDTGraph "A") "X" "o1" "t1")
            "Y" "o2" "t2") "X" "Y" "o3" "a1").getD
              (CmRDT.createCmRDTGraph "Z")).operationQueue ++ [op] ∧
      g'.clock =
        ((CmRDT.addArc
          (CmRDT.addVertex (CmRDT.addVertex (CmRDT.createCmRDTGraph "A") "X" "o1" "t1")
            "Y" "o2" "t2") "X" "Y" "o3" "a1").getD
              (CmRDT.createCmRDTGraph "Z")).clock + 1) := by
  refine ⟨?_, ?_, ?_⟩
  · cases hr : CmRDT.removeVertex
        (CmRDT.addVertex (CmRDT.addVertex (CmRDT.createCmRDTGraph "A") "X" "o1" "t1")
          "Y" "o2" "t2") "X" "o5" with
    | none => exact absurd hr (by decide)
    | some g' =>
        obtain ⟨op, h1, h2, h3, h4, h5⟩ :=
          (C10_cmrdt_wrappers_append_one_op _ "X" "X" "Y" "o5" "t").2.1 g' hr
        exact ⟨g', op, rfl, h1, h2, h3, h4, h5⟩
  · cases ha : CmRDT.addArc
        (CmRDT.addVertex (CmRDT.addVertex (CmRDT.createCmRDTGraph "A") "X" "o1" "t1")
          "Y" "o2" "t2") "X" "Y" "o3" "a1" with
    | none => exact absurd ha (by decide)
    | some g' =>
        obtain ⟨op, h1, h2, h3, h4, h5⟩ :=
          (C10_cmrdt_wrappers_append_one_op _ "X" "X" "Y" "o3" "a1").2.2.1 g' ha
        exact ⟨g', op, rfl, h1, h2, h4⟩
  · cases hr : CmRDT.removeArc
        ((CmRDT.addArc
          (CmRDT.addVertex (CmRDT.addVertex (CmRDT.createCmRDTGraph "A") "X" "o1" "t1")
            "Y" "o2" "t2") "X" "Y" "o3" "a1").getD (CmRDT.createCmRDTGraph "Z"))
        "X" "Y" "o4" with
    | none => exact absurd hr (by decide)
    | some g' =>
        obtain ⟨op, h1, h2, h3, h4, h5⟩ :=
          (C10_cmrdt_wrappers_append_one_op _ "X" "X" "Y" "o4" "t").2.2.2 g' hr
        exact ⟨g', op, rfl, h2, h4⟩

namespace DG

theorem mem_collectFirst {σ κ : Type} [DecidableEq κ] (vis : σ → Bool) (key : σ → κ)
    (l : List σ) (seen : List κ) (x : σ) (hx : x ∈ collectFirst vis key l seen) :
    vis x = true ∧ x ∈ l ∧ key x ∉ seen := by
  induction l generalizing seen with
  | nil => cases hx
  | cons e l ih =>
      unfold collectFirst at hx
      by_cases h : vis e = true ∧ key e ∉ seen
      · rw [if_pos h] at hx
        rcases List.mem_cons.mp hx with rfl | hx
        · exact ⟨h.1, List.mem_cons_self .., h.2⟩
        · obtain ⟨h1, h2, h3⟩ := ih _ hx
          exact ⟨h1, List.mem_cons_of_mem _ h2,
            fun hm => h3 (List.mem_cons_of_mem _ hm)⟩
      · rw [if_neg h] at hx
        obtain ⟨h1, h2, h3⟩ := ih _ hx
        exact ⟨h1, List.mem_cons_of_mem _ h2, h3⟩

theorem nodup_keys_collectFirst {σ κ : Type} [DecidableEq κ] (vis : σ → Bool)
    (key : σ → κ) (l : List σ) (seen : List κ) :
    ((collectFirst vis key l seen).map key).Nodup := by
  induction l generalizing seen with
  | nil => simp [collectFirst]
  | cons e l ih =>
      unfold collectFirst
      by_cases h : vis e = true ∧ key e ∉ seen
      · rw [if_pos h]
        refine List.nodup_cons.mpr ⟨?_, ih _⟩
        intro hmem
        obtain ⟨x, hx, hkx⟩ := List.mem_map.mp hmem
        exact (mem_collectFirst vis key l _ x hx).2.2 (by simp [hkx])
      · rw [if_neg h]
        exact ih _

theorem exists_key_collectFirst {σ κ : Type} [DecidableEq κ] (vis : σ → Bool)
    (key : σ → κ) (l : List σ) (seen : List κ) (k : κ) :
    (∃ x ∈ collectFirst vis key l seen, key x = k) ↔
      k ∉ seen ∧ ∃ x ∈ l, vis x = true ∧ key x = k := by
  induction l generalizing seen with
  | nil => simp [collectFirst]
  | cons e l ih =>
      unfold collectFirst
      by_cases h : vis e = true ∧ key e ∉ seen
      · rw [if_pos h]
        by_cases hk : key e = k
        · subst hk
          constructor
          · intro _
            exact ⟨h.2, e, List.mem_cons_self .., h.1, rfl⟩
          · intro _
            exact ⟨e, List.mem_cons_self .., rfl⟩
        · constructor
          · rintro ⟨x, hx, hkx⟩
            rcases List.mem_cons.mp hx with rfl | hx
            · exact absurd hkx hk
            · obtain ⟨hns, y, hy, hvy, hky⟩ := (ih _).mp ⟨x, hx, hkx⟩
              exact ⟨fun hm => hns (List.mem_cons_of_mem _ hm),
                y, List.mem_cons_of_mem _ hy, hvy, hky⟩
          · rintro ⟨hns, y, hy, hvy, hky⟩
            rcases List.mem_cons.mp hy with rfl | hy
            · exact absurd hky hk
            · obtain ⟨x, hx, hkx⟩ := (ih _).mpr
                ⟨fun hm => (List.mem_cons.mp hm).elim (fun h' => hk h'.symm) hns,
                  y, hy, hvy, hky⟩
              exact ⟨x, List.mem_cons_of_mem _ hx, hkx⟩
      · rw [if_neg h]
        rw [ih]
        constructor
        · rintro ⟨hns, y, hy, hvy, hky⟩
          exact ⟨hns, y, List.mem_cons_of_mem _ hy, hvy, hky⟩
        · rintro ⟨hns, y, hy, hvy, hky⟩
          rcases List.mem_cons.mp hy with rfl | hy
          · rw [not_and_or] at h
            rcases h with h | h
            · exact absurd hvy h
            · rw [not_not] at h
              exact absurd (hky ▸ h) hns
          · exact ⟨hns, y, hy, hvy, hky⟩

theorem find_collectFirst {σ κ : Type} [DecidableEq κ] (vis : σ → Bool) (key : σ → κ)
    (l : List σ) (seen : List κ) (x : σ) (hx : x ∈ collectFirst vis key l seen) :
    l.find? (fun y => vis y && decide (key y = key x)) = some x := by
  induction l generalizing seen with
  | nil => cases hx
  | cons e l ih =>
      unfold collectFirst at hx
      by_cases h : vis e = true ∧ key e ∉ seen
      · rw [if_pos h] at hx
        rcases List.mem_cons.mp hx with rfl | hx
        · exact List.find?_cons_of_pos _ (by simp [h.1])
        · have hne : key x ≠ key e := by
            intro hkeq
            exact (mem_collectFirst vis key l _ x hx).2.2 (by simp [hkeq])
          rw [List.find?_cons_of_neg _
              (by simp; exact fun _ hke => hne hke.symm),
            ih _ hx]
      · rw [if_neg h] at hx
        have hnx := (mem_collectFirst vis key l _ x hx).2.2
        have hpe : (vis e && decide (key e = key x)) = false := by
          rw [not_and_or] at h
          rcases h with h | h
          · simp [Bool.eq_false_iff.mpr h]
          · rw [not_not] at h
            have : key e ≠ key x := fun hke => hnx (hke ▸ h)
            simp [this]
        rw [List.find?_cons_of_neg _ (by simp [hpe]), ih _ hx]

end DG

namespace DG

theorem hasVertex_iff (g : DirectedGraph) (name : String) :
    hasVertex g name = true ↔
      ∃ q ∈ g.vertices, q.1 ∉ g.removedVertices ∧ q.2.name = name := by
  unfold hasVertex getVisibleVertices
  rw [List.any_eq_true]
  constructor
  · rintro ⟨v, hv, hb⟩
    obtain ⟨p, hp, rfl⟩ := List.mem_map.mp hv
    obtain ⟨-, q, hq, hvq, hkq⟩ :=
      (exists_key_collectFirst _ _ g.vertices [] name).mp ⟨p, hp, by simpa using hb⟩
    exact ⟨q, hq, by simpa using hvq, hkq⟩
  · rintro ⟨q, hq, hnr, hname⟩
    obtain ⟨x, hx, hkx⟩ := (exists_key_collectFirst
      (fun p : String × Vertex => !(g.removedVertices.contains p.1))
      (fun p => p.2.name) g.vertices [] name).mpr
        ⟨by simp, q, hq, by simpa using hnr, hname⟩
    exact ⟨x.2, List.mem_map_of_mem _ hx, by simpa using hkx⟩

end DG

namespace CmRDT

theorem nameVisible_iff (g : CmRDTGraph) (name : String) :
    nameVisible g name = true ↔
      ∃ tags, g.V.get? name = some tags ∧ ∃ t ∈ tags, t ∉ g.R := by
  unfold nameVisible
  cases h : g.V.get? name <;> simp

end CmRDT

/-- C9: `getVisibleVertices` yields at most one vertex record per
distinct name — the record of the first visible entry in map insertion
order — and `getVisibleArcs` yields at most one arc record per distinct
`(from, to)` pair, again the first visible one. -/
theorem C9_visible_queries_dedup (g : DG.DirectedGraph) :
    ((DG.getVisibleVertices g).map DG.Vertex.name).Nodup ∧
    (∀ v ∈ DG.getVisibleVertices g, ∃ u,
      g.vertices.find?
        (fun q => !(g.removedVertices.contains q.1) && decide (q.2.name = v.name))
        = some (u, v)) ∧
    ((DG.getVisibleArcs g).map (fun a => (a.«from», a.«to»))).Nodup ∧
    (∀ a ∈ DG.getVisibleArcs g, ∃ u,
      g.arcs.find?
        (fun q => (!(g.removedArcs.contains q.1) &&
            ((DG.getVisibleVertices g).map DG.Vertex.name).contains q.2.«from» &&
            ((DG.getVisibleVertices g).map DG.Vertex.name).contains q.2.«to») &&
          decide (DG.arcKey q.2 = DG.arcKey a))
        = some (u, a)) := by
  refine ⟨?_, ?_, ?_, ?_⟩
  · have h := DG.nodup_keys_collectFirst
      (fun p : String × DG.Vertex => !(g.removedVertices.contains p.1))
      (fun p => p.2.name) g.vertices []
    unfold DG.getVisibleVertices
    simpa [List.map_map] using h
  · intro v hv
    obtain ⟨p, hp, rfl⟩ := List.mem_map.mp hv
    refine ⟨p.1, ?_⟩
    have h := DG.find_collectFirst
      (fun p : String × DG.Vertex => !(g.removedVertices.contains p.1))
      (fun p => p.2.name) g.vertices [] p hp
    exact h
  · have h := DG.nodup_keys_collectFirst
      (fun p : String × DG.Arc => !(g.removedArcs.contains p.1) &&
        ((DG.getVisibleVertices g).map DG.Vertex.name).contains p.2.«from» &&
        ((DG.getVisibleVertices g).map DG.Vertex.name).contains p.2.«to»)
      (fun p => DG.arcKey p.2) g.arcs []
    unfold DG.getVisibleArcs
    refine List.Nodup.of_map (fun p : String × String => p.1 ++ "->" ++ p.2) ?_
    simpa [List.map_map, DG.arcKey, Function.comp] using h
  · intro a ha
    unfold DG.getVisibleArcs at ha
    obtain ⟨p, hp, rfl⟩ := List.mem_map.mp ha
    refine ⟨p.1, ?_⟩
    have h := DG.find_collectFirst
      (fun p : String × DG.Arc => !(g.removedArcs.contains p.1) &&
        ((DG.getVisibleVertices g).map DG.Vertex.name).contains p.2.«from» &&
        ((DG.getVisibleVertices g).map DG.Vertex.name).contains p.2.«to»)
      (fun p => DG.arcKey p.2) g.arcs [] p hp
    exact h

/-- C7: the state-based `addArc` returns the no-effect signal exactly
when one of the endpoint names has no visible tag, and on success adds
exactly one arc record under the supplied fresh tag; `prepareAddArc`
likewise fails exactly when an endpoint has no visible tag and otherwise
yields an `AddArc` op carrying the supplied fresh tag. -/
theorem C7_addArc_requires_visible_endpoints (g : DG.DirectedGraph)
    (gc : CmRDT.CmRDTGraph) («from» «to» uuid opId tag : String) :
    (DG.addArc g «from» «to» uuid = none ↔
      ¬((∃ q ∈ g.vertices, q.1 ∉ g.removedVertices ∧ q.2.name = «from») ∧
        (∃ q ∈ g.vertices, q.1 ∉ g.removedVertices ∧ q.2.name = «to»))) ∧
    (∀ g', DG.addArc g «from» «to» uuid = some g' →
      g' = { g with
        arcs := g.arcs.set uuid { «from» := «from», «to» := «to», uuid := uuid } }) ∧
    (CmRDT.prepareAddArc gc «from» «to» opId tag = none ↔
      ¬((∃ tags, gc.V.get? «from» = some tags ∧ ∃ t ∈ tags, t ∉ gc.R) ∧
        (∃ tags, gc.V.get? «to» = some tags ∧ ∃ t ∈ tags, t ∉ gc.R))) ∧
    (∀ op, CmRDT.prepareAddArc gc «from» «to» opId tag = some op →
      op = { id := opId, originReplica := gc.replicaId, timestamp := gc.clock + 1,
             payload := CmRDT.OpPayload.addArc
               { «from» := «from», «to» := «to», tag := tag } }) := by
  refine ⟨?_, ?_, ?_, ?_⟩
  · rw [← DG.hasVertex_iff, ← DG.hasVertex_iff]
    unfold DG.addArc DG.hasVertex
    dsimp only
    split
    · rename_i hcond
      simp only [Bool.or_eq_true, Bool.not_eq_eq_eq_not, Bool.not_true] at hcond
      constructor
      · intro _
        rintro ⟨h1, h2⟩
        rcases hcond with h | h
        · rw [h] at h1; cases h1
        · rw [h] at h2; cases h2
      · intro _; rfl
    · rename_i hcond
      simp only [Bool.or_eq_true, Bool.not_eq_eq_eq_not, Bool.not_true, not_or] at hcond
      constructor
      · intro h; cases h
      · intro h
        exact absurd ⟨Bool.not_eq_false _ ▸ hcond.1, Bool.not_eq_false _ ▸ hcond.2⟩ h
  · intro g' h
    unfold DG.addArc at h
    dsimp only at h
    split at h
    · cases h
    · cases h; rfl
  · rw [← CmRDT.nameVisible_iff, ← CmRDT.nameVisible_iff]
    unfold CmRDT.prepareAddArc
    split
    · rename_i hcond
      simp only [Bool.not_eq_eq_eq_not, Bool.not_true] at hcond
      constructor
      · intro _
        rintro ⟨h1, h2⟩
        rw [hcond] at h1; cases h1
      · intro _; rfl
    · split
      · rename_i hcond
        simp only [Bool.not_eq_eq_eq_not, Bool.not_true] at hcond
        constructor
        · intro _
          rintro ⟨h1, h2⟩
          rw [hcond] at h2; cases h2
        · intro _; rfl
      · rename_i h1 h2
        simp only [Bool.not_eq_eq_eq_not, Bool.not_true, Bool.not_eq_false] at h1 h2
        constructor
        · intro h; cases h
        · intro h; exact absurd ⟨h1, h2⟩ h
  · intro op h
    unfold CmRDT.prepareAddArc at h
    split at h
    · cases h
    · split at h
      · cases h
      · cases h; rfl

/-- Witness for C7: a concrete graph with visible vertices X and Y on
which both `addArc` variants succeed with the stated result, and the
empty graph on which both fail. -/
theorem C7_addArc_requires_visible_endpoints_witness :
    (DG.addArc (DG.addVertex (DG.addVertex DG.createDirectedGraph "X" "u1") "Y" "u2")
        "X" "Y" "a1" =
      some { DG.addVertex (DG.addVertex DG.createDirectedGraph "X" "u1") "Y" "u2" with
        arcs := (DG.addVertex (DG.addVertex DG.createDirectedGraph "X" "u1")
          "Y" "u2").arcs.set "a1" { «from» := "X", «to» := "Y", uuid := "a1" } }) ∧
    (DG.addArc DG.createDirectedGraph "X" "Y" "a1" = none) ∧
    (∃ op, CmRDT.prepareAddArc
        (CmRDT.addVertex (CmRDT.addVertex (CmRDT.createCmRDTGraph "A") "X" "o1" "t1")
          "Y" "o2" "t2") "X" "Y" "o3" "a1" = some op ∧
      op = { id := "o3",
             originReplica :=
               (CmRDT.addVertex (CmRDT.addVertex (CmRDT.createCmRDTGraph "A")
                 "X" "o1" "t1") "Y" "o2" "t2").replicaId,
             timestamp :=
               (CmRDT.addVertex (CmRDT.addVertex (CmRDT.createCmRDTGraph "A")
                 "X" "o1" "t1") "Y" "o2" "t2").clock + 1,
             payload := CmRDT.OpPayload.addArc
               { «from» := "X", «to» := "Y", tag := "a1" } }) ∧
    (CmRDT.prepareAddArc (CmRDT.createCmRDTGraph "A") "X" "Y" "o3" "a1" = none) := by
  refine ⟨?_, ?_, ?_, ?_⟩
  · cases ha : DG.addArc
        (DG.addVertex (DG.addVertex DG.createDirectedGraph "X" "u1") "Y" "u2")
        "X" "Y" "a1" with
    | none => exact absurd ha (by decide)
    | some g' =>
        rw [(C7_addArc_requires_visible_endpoints
          (DG.addVertex (DG.addVertex DG.createDirectedGraph "X" "u1") "Y" "u2")
          (CmRDT.createCmRDTGraph "A") "X" "Y" "a1" "o" "t").2.1 g' ha]
  · exact (C7_addArc_requires_visible_endpoints DG.createDirectedGraph
      (CmRDT.createCmRDTGraph "A") "X" "Y" "a1" "o" "t").1.mpr (by decide)
  · cases ha : CmRDT.prepareAddArc
        (CmRDT.addVertex (CmRDT.addVertex (CmRDT.createCmRDTGraph "A") "X" "o1" "t1")
          "Y" "o2" "t2") "X" "Y" "o3" "a1" with
    | none => exact absurd ha (by decide)
    | some op =>
        exact ⟨op, rfl, (C7_addArc_requires_visible_endpoints DG.createDirectedGraph
          (CmRDT.addVertex (CmRDT.addVertex (CmRDT.createCmRDTGraph "A") "X" "o1" "t1")
            "Y" "o2" "t2") "X" "Y" "a1" "o3" "a1").2.2.2 op ha⟩
  · exact (C7_addArc_requires_visible_endpoints DG.createDirectedGraph
      (CmRDT.createCmRDTGraph "A") "X" "Y" "a1" "o3" "a1").2.2.1.mpr (by decide)

namespace TwoP

/-- One step of further activity on a 2P-Set replica: a local add, a
local remove, or a merge with another replica's state on either side. -/
inductive TwoPOp (α : Type)
  | addOp (e : α)
  | removeOp (e : α)
  | mergeWith (t : TwoPSet α)
  | mergeInto (t : TwoPSet α)

/-- Apply one further operation to a state. -/
def applyOp {α : Type} [DecidableEq α] (s : TwoPSet α) : TwoPOp α → TwoPSet α
  | .addOp e => add s e
  | .removeOp e => remove s e
  | .mergeWith t => merge s t
  | .mergeInto t => merge t s

/-- Apply a sequence of further operations, oldest first. -/
def applyOps {α : Type} [DecidableEq α] (s : TwoPSet α) (ops : List (TwoPOp α)) :
    TwoPSet α :=
  ops.foldl applyOp s

theorem mem_lookup_aux {α : Type} [DecidableEq α] (rem : CRDT.ListSet α)
    (added : List α) (acc : CRDT.ListSet α) (x : α) :
    (x ∈ added.foldl
      (fun result element =>
        if element ∈ rem then result else result.insert element) acc) ↔
      x ∈ acc ∨ (x ∈ added ∧ x ∉ rem) := by
  induction added generalizing acc with
  | nil => simp
  | cons e l ih =>
      show (x ∈ l.foldl _ (if e ∈ rem then acc else acc.insert e)) ↔ _
      rw [ih]
      by_cases he : e ∈ rem
      · rw [if_pos he]
        constructor
        · rintro (h | ⟨hx, hr⟩)
          · exact Or.inl h
          · exact Or.inr ⟨List.mem_cons_of_mem _ hx, hr⟩
        · rintro (h | ⟨hx, hr⟩)
          · exact Or.inl h
          · rcases List.mem_cons.mp hx with rfl | hx
            · exact absurd he hr
            · exact Or.inr ⟨hx, hr⟩
      · rw [if_neg he, CRDT.ListSet.mem_insert]
        constructor
        · rintro ((h | rfl) | ⟨hx, hr⟩)
          · exact Or.inl h
          · exact Or.inr ⟨List.mem_cons_self .., he⟩
          · exact Or.inr ⟨List.mem_cons_of_mem _ hx, hr⟩
        · rintro (h | ⟨hx, hr⟩)
          · exact Or.inl (Or.inl h)
          · rcases List.mem_cons.mp hx with rfl | hx
            · exact Or.inl (Or.inr rfl)
            · exact Or.inr ⟨hx, hr⟩

theorem mem_lookup {α : Type} [DecidableEq α] (s : TwoPSet α) (x : α) :
    x ∈ lookup s ↔ x ∈ s.added ∧ x ∉ s.removed := by
  unfold lookup
  rw [mem_lookup_aux]
  simp

theorem removed_mono {α : Type} [DecidableEq α] (s : TwoPSet α) (o : TwoPOp α)
    (e : α) (h : e ∈ s.removed) : e ∈ (applyOp s o).removed := by
  cases o with
  | addOp x => exact h
  | removeOp x => exact (CRDT.ListSet.mem_insert _ _ _).mpr (Or.inl h)
  | mergeWith t =>
      exact (CRDT.ListSet.mem_insertAll _ _ _).mpr
        (Or.inl ((CRDT.ListSet.mem_insertAll _ _ _).mpr (Or.inr h)))
  | mergeInto t =>
      exact (CRDT.ListSet.mem_insertAll _ _ _).mpr (Or.inr h)

end TwoP

/-- C5: once an element is tombstoned in a 2P-Set state, it stays
tombstoned under every further sequence of adds, removes and merges (on
either side), and is never visible in any such result. -/
theorem C5_twopset_tombstone_permanent {α : Type} [DecidableEq α]
    (s : TwoP.TwoPSet α) (e : α) (h : e ∈ s.removed)
    (ops : List (TwoP.TwoPOp α)) :
    e ∈ (TwoP.applyOps s ops).removed ∧ e ∉ TwoP.lookup (TwoP.applyOps s ops) := by
  have hrem : e ∈ (TwoP.applyOps s ops).removed := by
    induction ops generalizing s with
    | nil => exact h
    | cons o ops ih => exact ih _ (TwoP.removed_mono s o e h)
  refine ⟨hrem, ?_⟩
  intro hvis
  exact ((TwoP.mem_lookup _ _).mp hvis).2 hrem

/-- Witness for C5: the element "a", removed in a concrete state, stays
invisible after an interleaving of adds, removes and merges. -/
theorem C5_twopset_tombstone_permanent_witness :
    ("a" ∈ (TwoP.applyOps
        (TwoP.remove (TwoP.add (TwoP.createTwoPSet String) "a") "a")
        [TwoP.TwoPOp.addOp "a", TwoP.TwoPOp.mergeWith (TwoP.add (TwoP.createTwoPSet String) "a"),
         TwoP.TwoPOp.mergeInto (TwoP.add (TwoP.createTwoPSet String) "b"),
         TwoP.TwoPOp.removeOp "c"]).removed ∧
      "a" ∉ TwoP.lookup (TwoP.applyOps
        (TwoP.remove (TwoP.add (TwoP.createTwoPSet String) "a") "a")
        [TwoP.TwoPOp.addOp "a", TwoP.TwoPOp.mergeWith (TwoP.add (TwoP.createTwoPSet String) "a"),
         TwoP.TwoPOp.mergeInto (TwoP.add (TwoP.createTwoPSet String) "b"),
         TwoP.TwoPOp.removeOp "c"])) :=
  C5_twopset_tombstone_permanent
    (TwoP.remove (TwoP.add (TwoP.createTwoPSet String) "a") "a") "a"
    (by decide)
    [TwoP.TwoPOp.addOp "a", TwoP.TwoPOp.mergeWith (TwoP.add (TwoP.createTwoPSet String) "a"),
     TwoP.TwoPOp.mergeInto (TwoP.add (TwoP.createTwoPSet String) "b"),
     TwoP.TwoPOp.removeOp "c"]

namespace CRDT

/-- Value of the last binding of `k` in `l`, if any — what a JS loop of
`Map.set` calls over `l` leaves behind for key `k`. -/
def ListMap.lookupLast {α β : Type} [DecidableEq α] : ListMap α β → α → Option β
  | [], _ => none
  | p :: l, k =>
      match ListMap.lookupLast l k with
      | some v => some v
      | none => if p.1 = k then some p.2 else none

theorem ListMap.get?_set_self {α β : Type} [DecidableEq α] (m : ListMap α β)
    (k : α) (v : β) : (ListMap.set m k v).get? k = some v := by
  induction m with
  | nil => simp [ListMap.set, ListMap.get?]
  | cons p m ih =>
      unfold ListMap.set
      by_cases hp : p.1 = k
      · rw [if_pos hp]
        simp [ListMap.get?]
      · rw [if_neg hp]
        unfold ListMap.get?
        rw [if_neg hp, ih]

theorem ListMap.get?_set_ne {α β : Type} [DecidableEq α] (m : ListMap α β)
    (k : α) (v : β) (k' : α) (h : k ≠ k') :
    (ListMap.set m k v).get? k' = m.get? k' := by
  induction m with
  | nil => simp [ListMap.set, ListMap.get?, h]
  | cons p m ih =>
      unfold ListMap.set
      by_cases hp : p.1 = k
      · rw [if_pos hp]
        unfold ListMap.get?
        rw [if_neg h, if_neg (hp ▸ h)]
      · rw [if_neg hp]
        unfold ListMap.get?
        by_cases h' : p.1 = k'
        · rw [if_pos h', if_pos h']
        · rw [if_neg h', if_neg h', ih]

theorem ListMap.lookupLast_cons {α β : Type} [DecidableEq α] (p : α × β)
    (l : ListMap α β) (k : α) :
    ListMap.lookupLast (p :: l) k =
      match ListMap.lookupLast l k with
      | some v => some v
      | none => if p.1 = k then some p.2 else none := rfl

theorem ListMap.get?_eq_none {α β : Type} [DecidableEq α] (l : ListMap α β)
    (k : α) (h : k ∉ l.map Prod.fst) : l.get? k = none := by
  induction l with
  | nil => rfl
  | cons p l ih =>
      show (if p.1 = k then some p.2 else ListMap.get? l k) = none
      rw [if_neg (fun hp : p.1 = k => h (hp ▸ List.mem_cons_self ..))]
      exact ih (fun hm => h (List.mem_cons_of_mem _ hm))

theorem ListMap.get?_setAll {α β : Type} [DecidableEq α] (l : List (α × β))
    (m : ListMap α β) (k : α) :
    (ListMap.setAll m l).get? k =
      match ListMap.lookupLast l k with
      | some v => some v
      | none => m.get? k := by
  induction l generalizing m with
  | nil => rfl
  | cons p l ih =>
      show (ListMap.setAll (m.set p.1 p.2) l).get? k = _
      rw [ih, ListMap.lookupLast_cons]
      cases hl : ListMap.lookupLast l k with
      | some v => rfl
      | none =>
          by_cases hp : p.1 = k
          · subst hp
            rw [if_pos rfl]
            exact ListMap.get?_set_self m p.1 p.2
          · rw [if_neg hp]
            exact ListMap.get?_set_ne m p.1 p.2 k hp

theorem ListMap.lookupLast_eq_none {α β : Type} [DecidableEq α] (l : ListMap α β)
    (k : α) (h : k ∉ l.map Prod.fst) : ListMap.lookupLast l k = none := by
  induction l with
  | nil => rfl
  | cons p l ih =>
      unfold ListMap.lookupLast
      rw [ih (fun hm => h (List.mem_cons_of_mem _ hm))]
      rw [if_neg (fun hp : p.1 = k => h (hp ▸ List.mem_cons_self ..))]

theorem ListMap.lookupLast_eq_get? {α β : Type} [DecidableEq α] (l : ListMap α β)
    (h : (l.map Prod.fst).Nodup) (k : α) : ListMap.lookupLast l k = l.get? k := by
  induction l with
  | nil => rfl
  | cons p l ih =>
      rw [List.map_cons, List.nodup_cons] at h
      rw [ListMap.lookupLast_cons, ih h.2]
      by_cases hp : p.1 = k
      · simp only [ListMap.get?, if_pos hp, ListMap.get?_eq_none l k (hp ▸ h.1)]
      · simp only [ListMap.get?, if_neg hp]
        cases ListMap.get? l k <;> rfl

theorem ListMap.get?_union {α β : Type} [DecidableEq α] (a b : ListMap α β)
    (hna : (a.map Prod.fst).Nodup) (hnb : (b.map Prod.fst).Nodup) (k : α) :
    (ListMap.setAll (ListMap.setAll [] a) b).get? k =
      match b.get? k with
      | some v => some v
      | none => a.get? k := by
  rw [ListMap.get?_setAll, ListMap.get?_setAll,
    ListMap.lookupLast_eq_get? _ hnb, ListMap.lookupLast_eq_get? _ hna]
  cases b.get? k <;> cases a.get? k <;> rfl

theorem ListMap.get?_union_comm {α β : Type} [DecidableEq α] (a b : ListMap α β)
    (hna : (a.map Prod.fst).Nodup) (hnb : (b.map Prod.fst).Nodup)
    (hagr : ∀ k v v', a.get? k = some v → b.get? k = some v' → v = v') (k : α) :
    (ListMap.setAll (ListMap.setAll [] a) b).get? k =
      (ListMap.setAll (ListMap.setAll [] b) a).get? k := by
  rw [ListMap.get?_union a b hna hnb, ListMap.get?_union b a hnb hna]
  cases ha : a.get? k <;> cases hb : b.get? k <;> try rfl
  rename_i v v'
  rw [hagr k v v' ha hb]

theorem perm_of_nodup_mem {α : Type} (la lb : List α) (ha : la.Nodup)
    (hb : lb.Nodup) (hmem : ∀ x, x ∈ la ↔ x ∈ lb) : la.length = lb.length :=
  ((List.perm_ext_iff_of_nodup ha hb).mpr hmem).length_eq

end CRDT

namespace PN

theorem merge_comm_eq (a b : PNCounter) : merge a b = merge b a := by
  unfold merge
  dsimp only
  rw [max_comm (max a.P.length a.N.length)]
  congr 1
  · exact List.map_congr_left (fun i _ => max_comm _ _)
  · exact List.map_congr_left (fun i _ => max_comm _ _)

end PN

namespace CRDT

theorem ListSet.mem_union {α : Type} [DecidableEq α] (xa xb : List α) (x : α) :
    x ∈ ListSet.insertAll (ListSet.insertAll [] xa) xb ↔ x ∈ xa ∨ x ∈ xb := by
  rw [ListSet.mem_insertAll, ListSet.mem_insertAll]
  simp

theorem ListSet.nodup_union {α : Type} [DecidableEq α] (xa xb : List α) :
    (ListSet.insertAll (ListSet.insertAll [] xa) xb).Nodup :=
  ListSet.nodup_insertAll _ _ (ListSet.nodup_insertAll _ _ List.nodup_nil)

end CRDT

theorem TwoP.merge_comm_equals {α : Type} [DecidableEq α] (s1 s2 : TwoPSet α) :
    TwoP.equals (TwoP.merge s1 s2) (TwoP.merge s2 s1) = true := by
  have hmemA : ∀ x, x ∈ CRDT.ListSet.insertAll (CRDT.ListSet.insertAll [] s1.added) s2.added ↔
      x ∈ CRDT.ListSet.insertAll (CRDT.ListSet.insertAll [] s2.added) s1.added := by
    intro x
    rw [CRDT.ListSet.mem_union, CRDT.ListSet.mem_union]
    exact or_comm
  have hmemR : ∀ x, x ∈ CRDT.ListSet.insertAll (CRDT.ListSet.insertAll [] s1.removed) s2.removed ↔
      x ∈ CRDT.ListSet.insertAll (CRDT.ListSet.insertAll [] s2.removed) s1.removed := by
    intro x
    rw [CRDT.ListSet.mem_union, CRDT.ListSet.mem_union]
    exact or_comm
  have hlenA := CRDT.perm_of_nodup_mem _ _
    (CRDT.ListSet.nodup_union s1.added s2.added)
    (CRDT.ListSet.nodup_union s2.added s1.added) hmemA
  have hlenR := CRDT.perm_of_nodup_mem _ _
    (CRDT.ListSet.nodup_union s1.removed s2.removed)
    (CRDT.ListSet.nodup_union s2.removed s1.removed) hmemR
  unfold TwoP.equals TwoP.merge
  dsimp only
  simp only [Bool.and_eq_true, beq_iff_eq, List.all_eq_true, decide_eq_true_eq]
  exact ⟨⟨⟨hlenA, hlenR⟩, fun e he => (hmemA e).mp he⟩, fun e he => (hmemR e).mp he⟩

theorem GSet.gset_merge_comm_equals {α : Type} [DecidableEq α] (g1 g2 : AddOnlySet α) :
    GSet.equals (GSet.merge g1 g2) (GSet.merge g2 g1) = true := by
  have hmem : ∀ x, x ∈ CRDT.ListSet.insertAll (CRDT.ListSet.insertAll [] g1.elements) g2.elements ↔
      x ∈ CRDT.ListSet.insertAll (CRDT.ListSet.insertAll [] g2.elements) g1.elements := by
    intro x
    rw [CRDT.ListSet.mem_union, CRDT.ListSet.mem_union]
    exact or_comm
  have hlen := CRDT.perm_of_nodup_mem _ _
    (CRDT.ListSet.nodup_union g1.elements g2.elements)
    (CRDT.ListSet.nodup_union g2.elements g1.elements) hmem
  unfold GSet.equals GSet.merge
  dsimp only
  simp only [Bool.and_eq_true, beq_iff_eq, List.all_eq_true, decide_eq_true_eq]
  exact ⟨hlen, fun e he => (hmem e).mp he⟩

/-- C3: merge is commutative for every state-based type, under each
type's own equality (exact vector equality for the counter, set equality
for the two set types, extensional map/set equality for the graph); for
the graph this needs valid states (duplicate-free JS map keys) agreeing
on the records bound to any shared tag. -/
theorem C3_state_merge_commutative (c1 c2 : PN.PNCounter)
    (s1 s2 : TwoP.TwoPSet String) (g1 g2 : GSet.AddOnlySet String)
    (d1 d2 : DG.DirectedGraph)
    (hv1 : (d1.vertices.map Prod.fst).Nodup) (hv2 : (d2.vertices.map Prod.fst).Nodup)
    (ha1 : (d1.arcs.map Prod.fst).Nodup) (ha2 : (d2.arcs.map Prod.fst).Nodup)
    (hagrV : ∀ k v v', d1.vertices.get? k = some v → d2.vertices.get? k = some v' → v = v')
    (hagrA : ∀ k v v', d1.arcs.get? k = some v → d2.arcs.get? k = some v' → v = v') :
    PN.merge c1 c2 = PN.merge c2 c1 ∧
    TwoP.equals (TwoP.merge s1 s2) (TwoP.merge s2 s1) = true ∧
    GSet.equals (GSet.merge g1 g2) (GSet.merge g2 g1) = true ∧
    DG.DGEquiv (DG.merge d1 d2) (DG.merge d2 d1) := by
  refine ⟨PN.merge_comm_eq c1 c2, TwoP.merge_comm_equals s1 s2,
    GSet.gset_merge_comm_equals g1 g2, ?_, ?_, ?_, ?_⟩
  · exact fun k => CRDT.ListMap.get?_union_comm d1.vertices d2.vertices hv1 hv2 hagrV k
  · intro x
    dsimp only [DG.merge]
    rw [CRDT.ListSet.mem_union, CRDT.ListSet.mem_union]
    exact or_comm
  · exact fun k => CRDT.ListMap.get?_union_comm d1.arcs d2.arcs ha1 ha2 hagrA k
  · intro x
    dsimp only [DG.merge]
    rw [CRDT.ListSet.mem_union, CRDT.ListSet.mem_union]
    exact or_comm

/-- Witness for C3: concrete valid states of all four types, with the
graph states sharing no tag, on which the commutativity theorem
instantiates. -/
theorem C3_state_merge_commutative_witness :
    PN.merge (PN.increment (PN.createPNCounter 2) 0) (PN.decrement (PN.createPNCounter 2) 1)
      = PN.merge (PN.decrement (PN.createPNCounter 2) 1) (PN.increment (PN.createPNCounter 2) 0) ∧
    TwoP.equals
      (TwoP.merge (TwoP.add (TwoP.createTwoPSet String) "a")
        (TwoP.remove (TwoP.createTwoPSet String) "b"))
      (TwoP.merge (TwoP.remove (TwoP.createTwoPSet String) "b")
        (TwoP.add (TwoP.createTwoPSet String) "a")) = true ∧
    GSet.equals
      (GSet.merge (GSet.add (GSet.createAddOnlySet String) "a")
        (GSet.add (GSet.createAddOnlySet String) "b"))
      (GSet.merge (GSet.add (GSet.createAddOnlySet String) "b")
        (GSet.add (GSet.createAddOnlySet String) "a")) = true ∧
    DG.DGEquiv
      (DG.merge (DG.addVertex DG.createDirectedGraph "X" "t1")
        (DG.addVertex DG.createDirectedGraph "X" "t2"))
      (DG.merge (DG.addVertex DG.createDirectedGraph "X" "t2")
        (DG.addVertex DG.createDirectedGraph "X" "t1")) := by
  refine C3_state_merge_commutative _ _ _ _ _ _ _ _
    (by decide) (by decide) (by decide) (by decide) ?_ ?_
  · intro k v v' h1 h2
    by_cases hk : ("t1" : String) = k
    · subst hk
      rw [show (DG.addVertex DG.createDirectedGraph "X" "t2").vertices.get? "t1"
          = none from by decide] at h2
      cases h2
    · simp [DG.addVertex, DG.createDirectedGraph, CRDT.ListMap.set,
        CRDT.ListMap.get?, hk] at h1
  · intro k v v' h1 h2
    exact Option.noConfusion h1

namespace PN

theorem range_map_getD (l : List Int) :
    (List.range l.length).map (fun i => l.getD i 0) = l := by
  apply List.ext_getElem
  · simp
  · intro i h1 h2
    simp [List.getD_eq_getElem?_getD, List.getElem?_eq_getElem h2]

theorem reachable_len {c : PNCounter} (h : Reachable c) : c.P.length = c.N.length := by
  induction h with
  | create n => simp [createPNCounter]
  | inc i h hi ih => simpa [increment] using ih
  | dec i h hi ih => simpa [decrement] using ih
  | mrg ha hb iha ihb => simp [merge]

theorem merge_self_eq (c : PNCounter) (h : c.P.length = c.N.length) :
    merge c c = c := by
  obtain ⟨P, N⟩ := c
  simp only at h
  unfold merge
  dsimp only
  congr 1
  · rw [show max (max P.length N.length) (max P.length N.length) = P.length from by
      rw [max_self, ← h, max_self]]
    calc (List.range P.length).map (fun i => max (P.getD i 0) (P.getD i 0))
        = (List.range P.length).map (fun i => P.getD i 0) :=
          List.map_congr_left (fun i _ => max_self _)
      _ = P := range_map_getD P
  · rw [show max (max P.length N.length) (max P.length N.length) = N.length from by
      rw [max_self, h, max_self]]
    calc (List.range N.length).map (fun i => max (N.getD i 0) (N.getD i 0))
        = (List.range N.length).map (fun i => N.getD i 0) :=
          List.map_congr_left (fun i _ => max_self _)
      _ = N := range_map_getD N

theorem equals_refl (c : PNCounter) : equals c c = true := by
  simp [equals]

end PN

theorem TwoP.merge_self_equals {α : Type} [DecidableEq α] (s : TwoPSet α)
    (h1 : s.added.Nodup) (h2 : s.removed.Nodup) :
    TwoP.equals (TwoP.merge s s) s = true := by
  have hmemA : ∀ x, x ∈ CRDT.ListSet.insertAll (CRDT.ListSet.insertAll [] s.added) s.added ↔
      x ∈ s.added := fun x => by rw [CRDT.ListSet.mem_union]; exact or_self_iff
  have hmemR : ∀ x, x ∈ CRDT.ListSet.insertAll (CRDT.ListSet.insertAll [] s.removed) s.removed ↔
      x ∈ s.removed := fun x => by rw [CRDT.ListSet.mem_union]; exact or_self_iff
  have hlenA := CRDT.perm_of_nodup_mem _ _ (CRDT.ListSet.nodup_union s.added s.added) h1 hmemA
  have hlenR := CRDT.perm_of_nodup_mem _ _ (CRDT.ListSet.nodup_union s.removed s.removed) h2 hmemR
  unfold TwoP.equals TwoP.merge
  dsimp only
  simp only [Bool.and_eq_true, beq_iff_eq, List.all_eq_true, decide_eq_true_eq]
  exact ⟨⟨⟨hlenA, hlenR⟩, fun e he => (hmemA e).mp he⟩, fun e he => (hmemR e).mp he⟩

theorem GSet.gset_merge_self_equals {α : Type} [DecidableEq α] (g : AddOnlySet α)
    (h : g.elements.Nodup) : GSet.equals (GSet.merge g g) g = true := by
  have hmem : ∀ x, x ∈ CRDT.ListSet.insertAll (CRDT.ListSet.insertAll [] g.elements) g.elements ↔
      x ∈ g.elements := fun x => by rw [CRDT.ListSet.mem_union]; exact or_self_iff
  have hlen := CRDT.perm_of_nodup_mem _ _ (CRDT.ListSet.nodup_union g.elements g.elements) h hmem
  unfold GSet.equals GSet.merge
  dsimp only
  simp only [Bool.and_eq_true, beq_iff_eq, List.all_eq_true, decide_eq_true_eq]
  exact ⟨hlen, fun e he => (hmem e).mp he⟩

/-- C4: merge is idempotent for every state-based type: merging a valid
state with itself is the same state under the type's equality.  For the
counter, every state reachable from `createPNCounter` by in-range
increments/decrements and merges has equally long vectors, and
`merge(a,a)` then `equals` `a`. -/
theorem C4_state_merge_idempotent (c : PN.PNCounter) (hc : PN.Reachable c)
    (s : TwoP.TwoPSet String) (hs1 : s.added.Nodup) (hs2 : s.removed.Nodup)
    (g : GSet.AddOnlySet String) (hg : g.elements.Nodup)
    (d : DG.DirectedGraph)
    (hv : (d.vertices.map Prod.fst).Nodup) (ha : (d.arcs.map Prod.fst).Nodup) :
    PN.equals (PN.merge c c) c = true ∧
    TwoP.equals (TwoP.merge s s) s = true ∧
    GSet.equals (GSet.merge g g) g = true ∧
    DG.DGEquiv (DG.merge d d) d := by
  refine ⟨?_, TwoP.merge_self_equals s hs1 hs2, GSet.gset_merge_self_equals g hg,
    ?_, ?_, ?_, ?_⟩
  · rw [PN.merge_self_eq c (PN.reachable_len hc)]
    exact PN.equals_refl c
  · intro k
    show (CRDT.ListMap.setAll (CRDT.ListMap.setAll [] d.vertices) d.vertices).get? k
      = d.vertices.get? k
    rw [CRDT.ListMap.get?_union _ _ hv hv]
    cases d.vertices.get? k <;> rfl
  · intro x
    dsimp only [DG.merge]
    rw [CRDT.ListSet.mem_union]
    exact or_self_iff
  · intro k
    show (CRDT.ListMap.setAll (CRDT.ListMap.setAll [] d.arcs) d.arcs).get? k
      = d.arcs.get? k
    rw [CRDT.ListMap.get?_union _ _ ha ha]
    cases d.arcs.get? k <;> rfl
  · intro x
    dsimp only [DG.merge]
    rw [CRDT.ListSet.mem_union]
    exact or_self_iff

/-- Witness for C4: concrete reachable/valid states of all four types. -/
theorem C4_state_merge_idempotent_witness :
    PN.equals
      (PN.merge (PN.increment (PN.createPNCounter 2) 0) (PN.increment (PN.createPNCounter 2) 0))
      (PN.increment (PN.createPNCounter 2) 0) = true ∧
    TwoP.equals
      (TwoP.merge (TwoP.remove (TwoP.add (TwoP.createTwoPSet String) "a") "b")
        (TwoP.remove (TwoP.add (TwoP.createTwoPSet String) "a") "b"))
      (TwoP.remove (TwoP.add (TwoP.createTwoPSet String) "a") "b") = true ∧
    GSet.equals
      (GSet.merge (GSet.add (GSet.createAddOnlySet String) "a")
        (GSet.add (GSet.createAddOnlySet String) "a"))
      (GSet.add (GSet.createAddOnlySet String) "a") = true ∧
    DG.DGEquiv
      (DG.merge (DG.addVertex DG.createDirectedGraph "X" "t1")
        (DG.addVertex DG.createDirectedGraph "X" "t1"))
      (DG.addVertex DG.createDirectedGraph "X" "t1") :=
  C4_state_merge_idempotent
    (PN.increment (PN.createPNCounter 2) 0)
    (PN.Reachable.inc 0 (PN.Reachable.create 2) (by decide))
    (TwoP.remove (TwoP.add (TwoP.createTwoPSet String) "a") "b") (by decide) (by decide)
    (GSet.add (GSet.createAddOnlySet String) "a") (by decide)
    (DG.addVertex DG.createDirectedGraph "X" "t1") (by decide) (by decide)

/-- Source `serialize` of the add-only set module. -/
def GSet.serialize {α : Type} (set : GSet.AddOnlySet α) : List α :=
  set.elements

namespace CRDT

theorem listset_perm_iff_equal_parts {α : Type} (la lb : List α)
    (ha : la.Nodup) : la.Perm lb ↔ (la.length = lb.length ∧ ∀ x ∈ la, x ∈ lb) := by
  constructor
  · intro p
    exact ⟨p.length_eq, fun x hx => p.mem_iff.mp hx⟩
  · rintro ⟨hl, hsub⟩
    exact (List.subperm_of_subset ha hsub).perm_of_length_le (le_of_eq hl.symm)

theorem ListMap.mem_iff_get? {α β : Type} [DecidableEq α] (m : ListMap α β)
    (h : (m.map Prod.fst).Nodup) (k : α) (v : β) :
    (k, v) ∈ m ↔ m.get? k = some v := by
  induction m with
  | nil => simp [ListMap.get?]
  | cons p m ih =>
      rw [List.map_cons, List.nodup_cons] at h
      show _ ↔ (if p.1 = k then some p.2 else ListMap.get? m k) = some v
      by_cases hp : p.1 = k
      · subst hp
        rw [if_pos rfl]
        constructor
        · intro hm
          rcases List.mem_cons.mp hm with heq | hm
          · rw [congrArg Prod.snd heq.symm]
          · exact absurd
              (by simpa using List.mem_map_of_mem Prod.fst hm : p.1 ∈ m.map Prod.fst)
              h.1
        · intro hv
          injection hv with hv
          exact List.mem_cons.mpr (Or.inl (by rw [← hv]))
      · rw [if_neg hp, ← ih h.2]
        constructor
        · intro hm
          rcases List.mem_cons.mp hm with heq | hm
          · exact absurd (congrArg Prod.fst heq).symm hp
          · exact hm
        · exact fun hm => List.mem_cons_of_mem _ hm

theorem ListMap.values_perm_iff {α β : Type} [DecidableEq α] (m1 m2 : ListMap α β)
    (κ : β → α)
    (h1 : (m1.map Prod.fst).Nodup) (h2 : (m2.map Prod.fst).Nodup)
    (hb1 : ∀ p ∈ m1, κ p.2 = p.1) (hb2 : ∀ p ∈ m2, κ p.2 = p.1) :
    (m1.map Prod.snd).Perm (m2.map Prod.snd) ↔ ∀ k, m1.get? k = m2.get? k := by
  have key : ∀ (ma mb : ListMap α β),
      (ma.map Prod.fst).Nodup → (mb.map Prod.fst).Nodup →
      (∀ p ∈ ma, κ p.2 = p.1) → (∀ p ∈ mb, κ p.2 = p.1) →
      (ma.map Prod.snd).Perm (mb.map Prod.snd) →
      ∀ k v, ma.get? k = some v → mb.get? k = some v := by
    intro ma mb hna hnb hba hbb hp k v hg
    have hmem : (k, v) ∈ ma := (ListMap.mem_iff_get? ma hna k v).mpr hg
    have hv : v ∈ mb.map Prod.snd := hp.mem_iff.mp (List.mem_map_of_mem _ hmem)
    obtain ⟨q, hq, hqv⟩ := List.mem_map.mp hv
    have hκv : κ v = k := hba (k, v) hmem
    have hk : q.1 = k := by rw [← hbb q hq, hqv, hκv]
    have hqkv : (k, v) ∈ mb := by
      rw [← hk, ← hqv]
      exact hq
    exact (ListMap.mem_iff_get? mb hnb k v).mp hqkv
  constructor
  · intro hp k
    cases hg1 : m1.get? k with
    | some v => exact (key m1 m2 h1 h2 hb1 hb2 hp k v hg1).symm
    | none =>
        cases hg2 : m2.get? k with
        | none => rfl
        | some v =>
            rw [key m2 m1 h2 h1 hb2 hb1 hp.symm k v hg2] at hg1
            cases hg1
  · intro hget
    have hbm : ∀ q : α × β, q ∈ m1 ↔ q ∈ m2 := fun q => by
      rw [show q = (q.1, q.2) from rfl, ListMap.mem_iff_get? m1 h1,
        ListMap.mem_iff_get? m2 h2, hget]
    exact ((List.perm_ext_iff_of_nodup (List.Nodup.of_map Prod.fst h1)
      (List.Nodup.of_map Prod.fst h2)).mpr hbm).map Prod.snd

end CRDT

/-- C8 counterexample: two CmRDT graph states that differ (in their
`replicaId`) but serialize to the identical record — `serialize` does
not carry `replicaId`, so it is not recoverable and serialization does
not separate states that differ only there. -/
theorem C8_counterexample_replicaId_not_serialized :
    CmRDT.serialize (CmRDT.createCmRDTGraph "A")
      = CmRDT.serialize (CmRDT.createCmRDTGraph "B") ∧
    CmRDT.createCmRDTGraph "A" ≠ CmRDT.createCmRDTGraph "B" :=
  ⟨rfl, by decide⟩

/-- C8 amended: `serialize` is total on every type and lossless modulo
ordering for the two set types and the state-based graph — two valid
states serialize to permutations of each other's sequences exactly when
they are equal by the type's equality — while the CmRDT graph's
`serialize` recovers every component except `replicaId`, which it drops:
its serializations coincide exactly when the states agree on `V`, `R`,
`arcs`, `removedArcs`, `operationQueue` and `clock`. -/
theorem C8_serialize_lossless_except_replicaId
    (s1 s2 : TwoP.TwoPSet String)
    (hs1a : s1.added.Nodup) (hs1r : s1.removed.Nodup)
    (g1 g2 : GSet.AddOnlySet String) (hg1 : g1.elements.Nodup)
    (d1 d2 : DG.DirectedGraph)
    (hdv1 : (d1.vertices.map Prod.fst).Nodup) (hdv2 : (d2.vertices.map Prod.fst).Nodup)
    (hda1 : (d1.arcs.map Prod.fst).Nodup) (hda2 : (d2.arcs.map Prod.fst).Nodup)
    (hrv1 : d1.removedVertices.Nodup) (hrv2 : d2.removedVertices.Nodup)
    (hra1 : d1.removedArcs.Nodup) (hra2 : d2.removedArcs.Nodup)
    (hbv1 : ∀ p ∈ d1.vertices, p.2.uuid = p.1) (hbv2 : ∀ p ∈ d2.vertices, p.2.uuid = p.1)
    (hba1 : ∀ p ∈ d1.arcs, p.2.uuid = p.1) (hba2 : ∀ p ∈ d2.arcs, p.2.uuid = p.1)
    (ga gb : CmRDT.CmRDTGraph) :
    (((TwoP.serialize s1).1.Perm (TwoP.serialize s2).1 ∧
      (TwoP.serialize s1).2.Perm (TwoP.serialize s2).2) ↔
        TwoP.equals s1 s2 = true) ∧
    ((GSet.serialize g1).Perm (GSet.serialize g2) ↔ GSet.equals g1 g2 = true) ∧
    (((DG.serialize d1).1.Perm (DG.serialize d2).1 ∧
      (DG.serialize d1).2.1.Perm (DG.serialize d2).2.1 ∧
      (DG.serialize d1).2.2.1.Perm (DG.serialize d2).2.2.1 ∧
      (DG.serialize d1).2.2.2.Perm (DG.serialize d2).2.2.2) ↔
        DG.DGEquiv d1 d2) ∧
    (CmRDT.serialize ga = CmRDT.serialize gb ↔
      (ga.V = gb.V ∧ ga.R = gb.R ∧ ga.arcs = gb.arcs ∧
        ga.removedArcs = gb.removedArcs ∧
        ga.operationQueue = gb.operationQueue ∧ ga.clock = gb.clock)) := by
  refine ⟨?_, ?_, ?_, ?_⟩
  · unfold TwoP.serialize
    dsimp only
    rw [CRDT.listset_perm_iff_equal_parts _ _ hs1a,
      CRDT.listset_perm_iff_equal_parts _ _ hs1r]
    unfold TwoP.equals
    simp only [Bool.and_eq_true, beq_iff_eq, List.all_eq_true, decide_eq_true_eq]
    tauto
  · unfold GSet.serialize
    rw [CRDT.listset_perm_iff_equal_parts _ _ hg1]
    unfold GSet.equals
    simp only [Bool.and_eq_true, beq_iff_eq, List.all_eq_true, decide_eq_true_eq]
  · unfold DG.serialize DG.DGEquiv
    dsimp only
    exact and_congr
      (CRDT.ListMap.values_perm_iff d1.vertices d2.vertices DG.Vertex.uuid
        hdv1 hdv2 hbv1 hbv2)
      (and_congr (List.perm_ext_iff_of_nodup hrv1 hrv2)
        (and_congr
          (CRDT.ListMap.values_perm_iff d1.arcs d2.arcs DG.Arc.uuid
            hda1 hda2 hba1 hba2)
          (List.perm_ext_iff_of_nodup hra1 hra2)))
  · have e1 : (fun p : String × CRDT.ListSet String => (p.1, p.2)) = id :=
      funext fun p => rfl
    have e2 : (fun p : String × String × String => (p.1, p.2.1, p.2.2)) = id :=
      funext fun p => rfl
    simp only [CmRDT.serialize, CmRDT.Serialized.mk.injEq, e1, e2, List.map_id]

/-- Witness for C8's amended statement at concrete valid states. -/
theorem C8_serialize_lossless_except_replicaId_witness :
    (((TwoP.serialize (TwoP.add (TwoP.createTwoPSet String) "a")).1.Perm
        (TwoP.serialize (TwoP.add (TwoP.createTwoPSet String) "a")).1 ∧
      (TwoP.serialize (TwoP.add (TwoP.createTwoPSet String) "a")).2.Perm
        (TwoP.serialize (TwoP.add (TwoP.createTwoPSet String) "a")).2) ↔
        TwoP.equals (TwoP.add (TwoP.createTwoPSet String) "a")
          (TwoP.add (TwoP.createTwoPSet String) "a") = true) ∧
    ((GSet.serialize (GSet.add (GSet.createAddOnlySet String) "a")).Perm
        (GSet.serialize (GSet.add (GSet.createAddOnlySet String) "a")) ↔
      GSet.equals (GSet.add (GSet.createAddOnlySet String) "a")
        (GSet.add (GSet.createAddOnlySet String) "a") = true) ∧
    (((DG.serialize (DG.addVertex DG.createDirectedGraph "X" "t1")).1.Perm
        (DG.serialize (DG.addVertex DG.createDirectedGraph "X" "t1")).1 ∧
      (DG.serialize (DG.addVertex DG.createDirectedGraph "X" "t1")).2.1.Perm
        (DG.serialize (DG.addVertex DG.createDirectedGraph "X" "t1")).2.1 ∧
      (DG.serialize (DG.addVertex DG.createDirectedGraph "X" "t1")).2.2.1.Perm
        (DG.serialize (DG.addVertex DG.createDirectedGraph "X" "t1")).2.2.1 ∧
      (DG.serialize (DG.addVertex DG.createDirectedGraph "X" "t1")).2.2.2.Perm
        (DG.serialize (DG.addVertex DG.createDirectedGraph "X" "t1")).2.2.2) ↔
        DG.DGEquiv (DG.addVertex DG.createDirectedGraph "X" "t1")
          (DG.addVertex DG.createDirectedGraph "X" "t1")) ∧
    (CmRDT.serialize (CmRDT.createCmRDTGraph "A")
        = CmRDT.serialize (CmRDT.createCmRDTGraph "B") ↔
      ((CmRDT.createCmRDTGraph "A").V = (CmRDT.createCmRDTGraph "B").V ∧
        (CmRDT.createCmRDTGraph "A").R = (CmRDT.createCmRDTGraph "B").R ∧
        (CmRDT.createCmRDTGraph "A").arcs = (CmRDT.createCmRDTGraph "B").arcs ∧
        (CmRDT.createCmRDTGraph "A").removedArcs
          = (CmRDT.createCmRDTGraph "B").removedArcs ∧
        (CmRDT.createCmRDTGraph "A").operationQueue
          = (CmRDT.createCmRDTGraph "B").operationQueue ∧
        (CmRDT.createCmRDTGraph "A").clock = (CmRDT.createCmRDTGraph "B").clock)) :=
  C8_serialize_lossless_except_replicaId
    (TwoP.add (TwoP.createTwoPSet String) "a") (TwoP.add (TwoP.createTwoPSet String) "a")
    (by decide) (by decide)
    (GSet.add (GSet.createAddOnlySet String) "a") (GSet.add (GSet.createAddOnlySet String) "a")
    (by decide)
    (DG.addVertex DG.createDirectedGraph "X" "t1")
    (DG.addVertex DG.createDirectedGraph "X" "t1")
    (by decide) (by decide) (by decide) (by decide) (by decide) (by decide)
    (by decide) (by decide) (by decide) (by decide) (by decide) (by decide)
    (CmRDT.createCmRDTGraph "A") (CmRDT.createCmRDTGraph "B")

namespace CmRDT

theorem length_applyToOthers (op : PreparedOp) (src : Nat) :
    ∀ (j : Nat) (gs : List CmRDTGraph), (applyToOthers op src j gs).length = gs.length := by
  intro j gs
  induction gs generalizing j with
  | nil => rfl
  | cons g gs ih => simp [applyToOthers, ih]

theorem get_applyToOthers (op : PreparedOp) (src : Nat) :
    ∀ (gs : List CmRDTGraph) (j k : Nat) (hk : k < gs.length)
      (hk' : k < (applyToOthers op src j gs).length),
      (applyToOthers op src j gs).get ⟨k, hk'⟩ =
        if j + k = src then gs.get ⟨k, hk⟩ else applyEffect (gs.get ⟨k, hk⟩) op := by
  intro gs
  induction gs with
  | nil => intro j k hk; cases hk
  | cons g gs ih =>
      intro j k hk hk'
      cases k with
      | zero => simp [applyToOthers]
      | succ k =>
          have hk2 : k < gs.length := Nat.lt_of_succ_lt_succ hk
          have hk2' : k < (applyToOthers op src (j + 1) gs).length := by
            rw [length_applyToOthers]; exact hk2
          show (applyToOthers op src (j + 1) gs).get ⟨k, hk2'⟩ = _
          rw [ih (j + 1) k hk2 hk2']
          have : j + 1 + k = j + (k + 1) := by omega
          rw [this]
          rfl

theorem length_deliverAll (ops : List (PreparedOp × Nat)) :
    ∀ (rs : List CmRDTGraph), (deliverAll rs ops).length = rs.length := by
  induction ops with
  | nil => intro rs; rfl
  | cons p ops ih =>
      intro rs
      show (deliverAll (applyToOthers p.1 p.2 0 rs) ops).length = _
      rw [ih, length_applyToOthers]

theorem get_deliverAll (ops : List (PreparedOp × Nat)) :
    ∀ (rs : List CmRDTGraph) (j : Nat) (hj : j < rs.length)
      (hj' : j < (deliverAll rs ops).length),
      (deliverAll rs ops).get ⟨j, hj'⟩ =
        List.foldl (fun g p => applyEffect g p.1) (rs.get ⟨j, hj⟩)
          (ops.filter (fun p => decide (p.2 ≠ j))) := by
  induction ops with
  | nil => intro rs j hj hj'; rfl
  | cons p ops ih =>
      intro rs j hj hj'
      have hj2 : j < (applyToOthers p.1 p.2 0 rs).length := by
        rw [length_applyToOthers]; exact hj
      have hstep : (deliverAll rs (p :: ops)).get ⟨j, hj'⟩ =
          List.foldl (fun g q => applyEffect g q.1)
            ((applyToOthers p.1 p.2 0 rs).get ⟨j, hj2⟩)
            (ops.filter (fun q => decide (q.2 ≠ j))) :=
        ih (applyToOthers p.1 p.2 0 rs) j hj2 hj'
      rw [hstep, get_applyToOthers p.1 p.2 rs 0 j hj hj2]
      by_cases hsrc : p.2 = j
      · rw [if_pos (by omega), List.filter_cons_of_neg (by simp [hsrc])]
      · rw [if_neg (by omega), List.filter_cons_of_pos (by simp [hsrc])]
        rfl

theorem opLE_trans (a b c : PreparedOp × Nat) :
    opLE a b = true → opLE b c = true → opLE a c = true := by
  unfold opLE
  intro h1 h2
  simp only [decide_eq_true_eq] at h1 h2 ⊢
  omega

theorem opLE_total (a b : PreparedOp × Nat) : (opLE a b || opLE b a) = true := by
  unfold opLE
  simp only [Bool.or_eq_true, decide_eq_true_eq]
  omega

theorem mem_collectOps (replicas : List CmRDTGraph) (op : PreparedOp) (i : Nat) :
    (op, i) ∈ collectOps replicas ↔
      ∃ hi : i < replicas.length, op ∈ (replicas.get ⟨i, hi⟩).operationQueue := by
  unfold collectOps
  rw [List.mem_flatMap]
  constructor
  · rintro ⟨q, hq, hmem⟩
    obtain ⟨o, ho, heq⟩ := List.mem_map.mp hmem
    have h1 : o = op := congrArg Prod.fst heq
    have h2 : q.1 = i := congrArg Prod.snd heq
    have := List.mem_enum_iff_getElem?.mp hq
    subst h1
    rw [h2] at this
    have hi : i < replicas.length := by
      by_contra hge
      rw [List.getElem?_eq_none (by omega)] at this
      cases this
    refine ⟨hi, ?_⟩
    rw [List.getElem?_eq_getElem hi] at this
    injection this with this
    rw [List.get_eq_getElem, this]
    exact ho
  · rintro ⟨hi, hmem⟩
    refine ⟨(i, replicas.get ⟨i, hi⟩), ?_, ?_⟩
    · exact List.mk_mem_enum_iff_getElem?.mpr
        (by rw [List.getElem?_eq_getElem hi, List.get_eq_getElem])
    · exact List.mem_map.mpr ⟨op, hmem, rfl⟩

end CmRDT

/-- C1: `syncAllReplicas` collects exactly the queued ops of all
replicas (tagged with their source index), delivers them in one global
order of non-decreasing timestamp — a permutation of the collected
list, so each op is applied exactly once per target — applying each op
to every replica except the one it came from, in that order, and
returns replicas whose operation queues are all empty. -/
theorem C1_syncAllReplicas_spec (replicas : List CmRDT.CmRDTGraph) :
    (∀ op i, (op, i) ∈ CmRDT.collectOps replicas ↔
      ∃ hi : i < replicas.length, op ∈ (replicas.get ⟨i, hi⟩).operationQueue) ∧
    ((CmRDT.collectOps replicas).mergeSort CmRDT.opLE).Perm
      (CmRDT.collectOps replicas) ∧
    List.Pairwise (fun a b : CmRDT.PreparedOp × Nat => a.1.timestamp ≤ b.1.timestamp)
      ((CmRDT.collectOps replicas).mergeSort CmRDT.opLE) ∧
    (CmRDT.syncAllReplicas replicas).length = replicas.length ∧
    (∀ j (hj : j < replicas.length) (hj' : j < (CmRDT.syncAllReplicas replicas).length),
      (CmRDT.syncAllReplicas replicas).get ⟨j, hj'⟩ =
        CmRDT.clearOperationQueue
          (List.foldl (fun g p => CmRDT.applyEffect g p.1)
            (replicas.get ⟨j, hj⟩)
            (((CmRDT.collectOps replicas).mergeSort CmRDT.opLE).filter
              (fun p => decide (p.2 ≠ j))))) ∧
    (∀ g ∈ CmRDT.syncAllReplicas replicas, g.operationQueue = []) := by
  refine ⟨CmRDT.mem_collectOps replicas, List.mergeSort_perm _ _, ?_, ?_, ?_, ?_⟩
  · exact (List.sorted_mergeSort CmRDT.opLE_trans CmRDT.opLE_total
      (CmRDT.collectOps replicas)).imp
        (fun h => by simpa [CmRDT.opLE] using h)
  · unfold CmRDT.syncAllReplicas
    rw [List.length_map, CmRDT.length_deliverAll]
  · intro j hj hj'
    have hj2 : j <
        (CmRDT.deliverAll replicas
          ((CmRDT.collectOps replicas).mergeSort CmRDT.opLE)).length := by
      rw [CmRDT.length_deliverAll]; exact hj
    have h := CmRDT.get_deliverAll
      ((CmRDT.collectOps replicas).mergeSort CmRDT.opLE) replicas j hj hj2
    rw [List.get_eq_getElem] at h
    show (List.map CmRDT.clearOperationQueue _).get ⟨j, hj'⟩ = _
    rw [List.get_eq_getElem, List.getElem_map, h]
  · intro g hg
    unfold CmRDT.syncAllReplicas at hg
    obtain ⟨g', hg', rfl⟩ := List.mem_map.mp hg
    rfl

/-- Witness for C1 on two concrete replicas, one with a queued op. -/
theorem C1_syncAllReplicas_spec_witness :
    (CmRDT.syncAllReplicas
      [CmRDT.addVertex (CmRDT.createCmRDTGraph "A") "X" "o1" "t1",
       CmRDT.createCmRDTGraph "B"]).length = 2 ∧
    (CmRDT.syncAllReplicas
      [CmRDT.addVertex (CmRDT.createCmRDTGraph "A") "X" "o1" "t1",
       CmRDT.createCmRDTGraph "B"])[1]? =
      some (CmRDT.clearOperationQueue
        (List.foldl (fun g p => CmRDT.applyEffect g p.1)
          ([CmRDT.addVertex (CmRDT.createCmRDTGraph "A") "X" "o1" "t1",
            CmRDT.createCmRDTGraph "B"].get ⟨1, by decide⟩)
          (((CmRDT.collectOps
            [CmRDT.addVertex (CmRDT.createCmRDTGraph "A") "X" "o1" "t1",
             CmRDT.createCmRDTGraph "B"]).mergeSort CmRDT.opLE).filter
              (fun p => decide (p.2 ≠ 1))))) ∧
    (∀ g ∈ CmRDT.syncAllReplicas
      [CmRDT.addVertex (CmRDT.createCmRDTGraph "A") "X" "o1" "t1",
       CmRDT.createCmRDTGraph "B"], g.operationQueue = []) := by
  have h := C1_syncAllReplicas_spec
    [CmRDT.addVertex (CmRDT.createCmRDTGraph "A") "X" "o1" "t1",
     CmRDT.createCmRDTGraph "B"]
  have hlen : (CmRDT.syncAllReplicas
      [CmRDT.addVertex (CmRDT.createCmRDTGraph "A") "X" "o1" "t1",
       CmRDT.createCmRDTGraph "B"]).length = 2 := h.2.2.2.1
  have h1 : 1 < (CmRDT.syncAllReplicas
      [CmRDT.addVertex (CmRDT.createCmRDTGraph "A") "X" "o1" "t1",
       CmRDT.createCmRDTGraph "B"]).length := by omega
  have hg := h.2.2.2.2.1 1 (by decide) h1
  rw [List.get_eq_getElem] at hg
  refine ⟨hlen, ?_, h.2.2.2.2.2⟩
  rw [List.getElem?_eq_getElem h1, hg]
